/-
  Verification development for the InfraDbToArangoDb ingestion pipeline.

  The Python source is shallowly embedded: JSON records become the inductive
  type `JVal` (Python dicts are ordered association lists with unique keys,
  matching dict insertion-order semantics), fallible code returns
  `Except String`, and external libraries (float parsing, the pyproj
  transformer, shapely) appear as explicit function parameters.
-/
import Mathlib

set_option autoImplicit false

namespace InfraDb

/-- A JSON value as handled by the Python pipeline.  `obj` keeps entries in
insertion order, exactly like a Python `dict`. -/
inductive JVal where
  | null
  | bool (b : Bool)
  | num (n : Int)
  | str (s : String)
  | arr (items : List JVal)
  | obj (entries : List (String × JVal))

abbrev JObj := List (String × JVal)

/-- Induction over `JVal` that recurses through the nested lists. -/
theorem JVal.inductionOn (motive : JVal → Prop)
    (hnull : motive .null)
    (hbool : ∀ b, motive (.bool b))
    (hnum : ∀ n, motive (.num n))
    (hstr : ∀ s, motive (.str s))
    (harr : ∀ items, (∀ j ∈ items, motive j) → motive (.arr items))
    (hobj : ∀ entries, (∀ kv ∈ entries, motive kv.2) → motive (.obj entries))
    (j : JVal) : motive j :=
  match j with
  | .null => hnull
  | .bool b => hbool b
  | .num n => hnum n
  | .str s => hstr s
  | .arr items => harr items (fun i hi =>
      have : sizeOf i < 1 + sizeOf items := by
        have := List.sizeOf_lt_of_mem hi
        omega
      JVal.inductionOn motive hnull hbool hnum hstr harr hobj i)
  | .obj entries => hobj entries (fun kv hkv =>
      have : sizeOf kv.2 < 1 + sizeOf entries := by
        have h1 := List.sizeOf_lt_of_mem hkv
        obtain ⟨a, b⟩ := kv
        simp only [Prod.mk.sizeOf_spec] at *
        omega
      JVal.inductionOn motive hnull hbool hnum hstr harr hobj kv.2)
termination_by sizeOf j

mutual

/-- Structural Boolean equality on `JVal` (used to build `DecidableEq`). -/
def JVal.beq : JVal → JVal → Bool
  | .null, .null => true
  | .bool a, .bool b => a == b
  | .num a, .num b => a == b
  | .str a, .str b => a == b
  | .arr xs, .arr ys => JVal.beqList xs ys
  | .obj xs, .obj ys => JVal.beqObj xs ys
  | _, _ => false

def JVal.beqList : List JVal → List JVal → Bool
  | [], [] => true
  | x :: xs, y :: ys => JVal.beq x y && JVal.beqList xs ys
  | _, _ => false

def JVal.beqObj : List (String × JVal) → List (String × JVal) → Bool
  | [], [] => true
  | (k, v) :: xs, (l, w) :: ys => k == l && JVal.beq v w && JVal.beqObj xs ys
  | _, _ => false

end

theorem JVal.beq_iff : ∀ a b : JVal, JVal.beq a b = true ↔ a = b := by
  intro a
  induction a using JVal.inductionOn with
  | hnull => intro b; cases b <;> simp [JVal.beq]
  | hbool a => intro b; cases b <;> simp [JVal.beq]
  | hnum n => intro b; cases b <;> simp [JVal.beq]
  | hstr s => intro b; cases b <;> simp [JVal.beq]
  | harr items ih =>
      intro b
      cases b <;> simp only [JVal.beq] <;> try simp
      case arr ys =>
        induction items generalizing ys with
        | nil => cases ys <;> simp [JVal.beqList]
        | cons x xs ihx =>
            cases ys with
            | nil => simp [JVal.beqList]
            | cons y ys =>
                simp only [JVal.beqList, Bool.and_eq_true, List.cons.injEq]
                rw [ih x (by simp), ihx (fun j hj => ih j (by simp [hj])) ys]
  | hobj entries ih =>
      intro b
      cases b <;> simp only [JVal.beq] <;> try simp
      case obj ys =>
        induction entries generalizing ys with
        | nil => cases ys <;> simp [JVal.beqObj]
        | cons x xs ihx =>
            obtain ⟨k, v⟩ := x
            cases ys with
            | nil => simp [JVal.beqObj]
            | cons y ys =>
                obtain ⟨l, w⟩ := y
                simp only [JVal.beqObj, Bool.and_eq_true, List.cons.injEq,
                  beq_iff_eq, Prod.mk.injEq]
                rw [ih (k, v) (by simp)]
                constructor
                · rintro ⟨⟨h1, h2⟩, h3⟩
                  exact ⟨⟨h1, h2⟩, (ihx (fun j hj => ih j (by simp [hj])) ys).mp h3⟩
                · rintro ⟨⟨h1, h2⟩, h3⟩
                  exact ⟨⟨h1, h2⟩, (ihx (fun j hj => ih j (by simp [hj])) ys).mpr h3⟩

instance : DecidableEq JVal := fun a b => decidable_of_iff _ (JVal.beq_iff a b)

instance {ε α : Type} [DecidableEq ε] [DecidableEq α] : DecidableEq (Except ε α) := fun a b =>
  match a, b with
  | .ok x, .ok y => if h : x = y then isTrue (by rw [h]) else isFalse (by simp [h])
  | .error e, .error f => if h : e = f then isTrue (by rw [h]) else isFalse (by simp [h])
  | .ok _, .error _ => isFalse (by simp)
  | .error _, .ok _ => isFalse (by simp)

namespace JVal

/-- `d.get(k)` on a Python dict: the (unique) entry with the key. -/
def getKey (l : JObj) (k : String) : Option JVal :=
  match l with
  | [] => none
  | (k', v) :: rest => if k' = k then some v else getKey rest k

/-- `d[k] = v` on a Python dict: overwrite in place, else append at the end. -/
def setKey (l : JObj) (k : String) (v : JVal) : JObj :=
  match l with
  | [] => [(k, v)]
  | (k', v') :: rest => if k' = k then (k, v) :: rest else (k', v') :: setKey rest k v

/-- Python truthiness of a JSON value. -/
def truthy : JVal → Bool
  | .null => false
  | .bool b => b
  | .num n => n != 0
  | .str s => !(s == "")
  | .arr items => !items.isEmpty
  | .obj entries => !entries.isEmpty

/-- Is the value a Python `dict` or `list` (`isinstance(v, (dict, list))`)? -/
def isContainer : JVal → Bool
  | .arr _ => true
  | .obj _ => true
  | _ => false

@[simp] theorem getKey_setKey_self (l : JObj) (k : String) (v : JVal) :
    getKey (setKey l k v) k = some v := by
  induction l with
  | nil => simp [setKey, getKey]
  | cons hd tl ih =>
      obtain ⟨k', v'⟩ := hd
      by_cases h : k' = k <;> simp [setKey, getKey, h, ih]

theorem getKey_setKey_ne (l : JObj) (k k2 : String) (v : JVal) (h : k ≠ k2) :
    getKey (setKey l k v) k2 = getKey l k2 := by
  induction l with
  | nil => simp [setKey, getKey, h]
  | cons hd tl ih =>
      obtain ⟨k', v'⟩ := hd
      by_cases h1 : k' = k
      · subst h1
        simp [setKey, getKey, h]
      · by_cases h2 : k' = k2
        · subst h2
          simp [setKey, getKey, h1, Ne.symm h]
        · simp [setKey, getKey, h1, h2, ih]

theorem getKey_setKey (l : JObj) (k k2 : String) (v : JVal) :
    getKey (setKey l k v) k2 = if k = k2 then some v else getKey l k2 := by
  by_cases h : k = k2
  · subst h
    simp
  · simp [getKey_setKey_ne l k k2 v h, h]

theorem keys_setKey (l : JObj) (k : String) (v : JVal) :
    (setKey l k v).map Prod.fst =
      if k ∈ l.map Prod.fst then l.map Prod.fst else l.map Prod.fst ++ [k] := by
  induction l with
  | nil => simp [setKey]
  | cons hd tl ih =>
      obtain ⟨k', v'⟩ := hd
      by_cases h : k' = k
      · subst h
        simp [setKey]
      · simp only [setKey, if_neg h, List.map_cons, List.mem_cons]
        rw [ih]
        have h3 : ¬ k = k' := fun hh => h hh.symm
        by_cases h2 : k ∈ tl.map Prod.fst <;> simp [h2, h3]

end JVal

/-- `key.find(":") != -1` together with the split at the first colon. -/
def splitFirstColon (k : String) : Option (String × String) :=
  if k.data.contains ':' then
    some (⟨k.data.takeWhile (· ≠ ':')⟩, ⟨(k.data.dropWhile (· ≠ ':')).drop 1⟩)
  else
    none

/-- `key.replace(".", "_")`. -/
def dotToUnderscore (k : String) : String :=
  ⟨k.data.map (fun c => if c = '.' then '_' else c)⟩

/-- The cleaning applied to keys below the top level: drop everything up to
and including the first `:`, then replace `.` with `_`. -/
def cleanNestedKey (k : String) : String :=
  match splitFirstColon k with
  | some (_, rest) => dotToUnderscore rest
  | none => dotToUnderscore k

/-- `s.split("/")[-1]`: the segment after the last slash. -/
def lastSegment (s : String) : String :=
  ⟨(s.data.reverse.takeWhile (· ≠ '/')).reverse⟩

/-- `s[:n]` on a Python string. -/
def strTake (s : String) (n : Nat) : String := ⟨s.data.take n⟩

/-- `s.startswith(p)` (kernel-reducible, unlike `String.startsWith`). -/
def strStartsWith (s p : String) : Bool := p.data.isPrefixOf s.data

/-- `needle in hay` on Python strings (substring test). -/
def strContains (hay needle : String) : Bool :=
  (List.range (hay.data.length + 1)).any fun i => needle.data.isPrefixOf (hay.data.drop i)

/-- `s.upper()` (kernel-reducible). -/
def strToUpper (s : String) : String := ⟨s.data.map Char.toUpper⟩

/-- `s.strip()` (strip whitespace at both ends, kernel-reducible). -/
def strStrip (s : String) : String :=
  ⟨((s.data.dropWhile Char.isWhitespace).reverse.dropWhile Char.isWhitespace).reverse⟩

/-- Helper for `splitOnChar`: `acc` holds the current token reversed. -/
def splitOnCharGo (sep : Char) : List Char → List Char → List String
  | [], acc => [⟨acc.reverse⟩]
  | c :: rest, acc =>
      if c = sep then ⟨acc.reverse⟩ :: splitOnCharGo sep rest []
      else splitOnCharGo sep rest (c :: acc)

/-- `s.split(sep)` on Python strings for a one-character separator
(keeps empty parts, like Python). -/
def splitOnChar (sep : Char) (s : String) : List String := splitOnCharGo sep s.data []

/-- `sep.join(parts)`. -/
def joinWith (sep : String) : List String → String
  | [] => ("")
  | [x] => x
  | x :: y :: xs => x ++ sep ++ joinWith sep (y :: xs)

/-!  ### `_transform_keys` (src/InitialFillStep.py, lines 729-781)

`process(obj, depth)`: at depth 0, namespace keys `ns:field` are grouped into
buckets; at depth > 0 the namespace prefix is stripped instead.  Lists are
processed at the *same* depth, dict values at depth + 1, so only nesting
through a dict leaves the top level.  When a top-level bucket name collides
with an already-stored non-dict value, Python raises a `TypeError`
(`bucket[field] = value` with `bucket` not a dict): the `.error` case. -/

mutual

def transformTop : JVal → Except String JVal
  | .arr items => Except.map .arr (transformTopList items)
  | .obj entries => Except.map .obj (transformTopObj entries [])
  | j => .ok j

def transformTopList : List JVal → Except String (List JVal)
  | [] => .ok []
  | x :: xs =>
    match transformTop x with
    | .error e => .error e
    | .ok y =>
      match transformTopList xs with
      | .error e => .error e
      | .ok ys => .ok (y :: ys)

def transformTopObj : List (String × JVal) → JObj → Except String JObj
  | [], result => .ok result
  | (k, v) :: rest, result =>
    match splitFirstColon k with
    | some (ns, field) =>
      match JVal.getKey result ns with
      | some (.obj bucket) =>
          transformTopObj rest
            (JVal.setKey result ns (.obj (JVal.setKey bucket (dotToUnderscore field) (transformNested v))))
      | some _ => .error ("TypeError: namespace bucket is not a dict")
      | none =>
          transformTopObj rest
            (JVal.setKey result ns (.obj [(dotToUnderscore field, transformNested v)]))
    | none => transformTopObj rest (JVal.setKey result (dotToUnderscore k) (transformNested v))

def transformNested : JVal → JVal
  | .arr items => .arr (transformNestedList items)
  | .obj entries => .obj (transformNestedObj entries [])
  | j => j

def transformNestedList : List JVal → List JVal
  | [] => []
  | x :: xs => transformNested x :: transformNestedList xs

def transformNestedObj : List (String × JVal) → JObj → JObj
  | [], result => result
  | (k, v) :: rest, result =>
      transformNestedObj rest (JVal.setKey result (cleanNestedKey k) (transformNested v))

end

/-- `_transform_keys(data)` (src/InitialFillStep.py line 730): `process(data, 0)`. -/
def transformKeys (data : JVal) : Except String JVal := transformTop data

/-!  ### `_normalize_nested_keys` (src/InitialFillStep.py, lines 783-823)

Like the nested branch of `_transform_keys`, with two fast paths that return
the input unchanged (semantically they only skip work). -/

/-- A key that the nested normalization would touch (`':' in k or '.' in k`). -/
def keyNeedsChange (k : String) : Bool := k.data.contains ':' || k.data.contains '.'

mutual

def normalizeNested : JVal → JVal
  | .arr items =>
      if items.any JVal.isContainer then .arr (normalizeNestedList items)
      else .arr items
  | .obj entries =>
      if !(entries.any fun kv => keyNeedsChange kv.1) && !(entries.any fun kv => kv.2.isContainer)
      then .obj entries
      else .obj (normalizeNestedObj entries [])
  | j => j

def normalizeNestedList : List JVal → List JVal
  | [] => []
  | x :: xs => normalizeNested x :: normalizeNestedList xs

def normalizeNestedObj : List (String × JVal) → JObj → JObj
  | [], out => out
  | (k, v) :: rest, out =>
      normalizeNestedObj rest (JVal.setKey out (cleanNestedKey k) (normalizeNested v))

end

/-!  ### `_normalize_asset_top_level_keys` (src/InitialFillStep.py, lines 888-924) -/

def normalizeAssetTopGo : List (String × JVal) → JObj → JObj
  | [], out => out
  | (k, v) :: rest, out =>
    if k = "" || strStartsWith k ("@") then normalizeAssetTopGo rest (JVal.setKey out k v)
    else
      match splitFirstColon k with
      | some (ns, field) =>
        let bucket : JObj :=
          match JVal.getKey out ns with
          | some (.obj b) => b
          | _ => []
        normalizeAssetTopGo rest (JVal.setKey out ns (.obj (JVal.setKey bucket (dotToUnderscore field) v)))
      | none => normalizeAssetTopGo rest (JVal.setKey out (dotToUnderscore k) v)

def normalizeAssetTopLevelKeys (raw : List (String × JVal)) : JObj :=
  normalizeAssetTopGo raw []

/-- The per-entry step of `_insert_assets` lines 592-599: keys starting
with `@` are kept verbatim, dict/list values under other keys get
`_normalize_nested_keys`. -/
def assetPost (kv : String × JVal) : String × JVal :=
  if strStartsWith kv.1 ("@") then kv
  else if kv.2.isContainer then (kv.1, normalizeNested kv.2) else kv

/-- The full asset key normalization performed by `_insert_assets`
(src/InitialFillStep.py, lines 586-599): top-level bucketing via
`_normalize_asset_top_level_keys`, then `_normalize_nested_keys` on every
non-`@` top-level dict/list value. -/
def normalizeAssetKeys (raw : List (String × JVal)) : JObj :=
  (normalizeAssetTopLevelKeys raw).map assetPost

/-- The top-level output key that `_normalize_asset_top_level_keys` stores a
given input key under: `@`/empty keys verbatim, `ns:rest` under `ns`, plain
keys with `.` replaced by `_`. -/
def targetTopKey (k : String) : String :=
  if k = "" || strStartsWith k ("@") then k
  else
    match splitFirstColon k with
    | some (ns, _) => ns
    | none => dotToUnderscore k

/-- A namespaced top-level key whose namespace part is dot-free and whose
remainder holds no second colon (the shape the spec sentence describes). -/
def goodTopKey (k : String) : Bool :=
  match splitFirstColon k with
  | some (ns, rest) => !(ns.data.contains '.') && !(rest.data.contains ':')
  | none => true


/-!  ### Key-shape predicates (used to settle the idempotence and
no-colon/dot claims about the key normalization) -/

mutual

/-- No key at any depth contains `:` or `.` (the spec's notion of a fully
normalized record). -/
def noBadKeys : JVal → Bool
  | .arr items => noBadKeysList items
  | .obj entries => noBadKeysObj entries
  | _ => true

def noBadKeysList : List JVal → Bool
  | [] => true
  | x :: xs => noBadKeys x && noBadKeysList xs

def noBadKeysObj : List (String × JVal) → Bool
  | [] => true
  | (k, v) :: rest => !(keyNeedsChange k) && noBadKeys v && noBadKeysObj rest

end

mutual

/-- Every object at any depth has pairwise-distinct keys (true of every
image of a Python dict). -/
def nodupKeysJ : JVal → Bool
  | .arr items => nodupKeysList items
  | .obj entries => nodupKeysObj entries
  | _ => true

def nodupKeysList : List JVal → Bool
  | [] => true
  | x :: xs => nodupKeysJ x && nodupKeysList xs

def nodupKeysObj : List (String × JVal) → Bool
  | [] => true
  | (k, v) :: rest => !(rest.any fun kv => kv.1 == k) && nodupKeysJ v && nodupKeysObj rest

end

/-- At most one `:` in the key (no second colon after the first). -/
def atMostOneColon (k : String) : Bool :=
  !(((k.data.dropWhile (· ≠ ':')).drop 1).contains ':')

mutual

/-- Every key at any depth has at most one colon. -/
def keysOneColon : JVal → Bool
  | .arr items => keysOneColonList items
  | .obj entries => keysOneColonObj entries
  | _ => true

def keysOneColonList : List JVal → Bool
  | [] => true
  | x :: xs => keysOneColon x && keysOneColonList xs

def keysOneColonObj : List (String × JVal) → Bool
  | [] => true
  | (k, v) :: rest => atMostOneColon k && keysOneColon v && keysOneColonObj rest

end

/-- Input records on which the spec's clean-output conclusion is provable:
values under `@`/empty keys are already clean, every other top-level key is a
`goodTopKey` and its value's keys hold at most one colon each. -/
def goodAssetInput (entries : List (String × JVal)) : Bool :=
  entries.all fun kv =>
    if kv.1 = "" || strStartsWith kv.1 ("@") then noBadKeys kv.2
    else goodTopKey kv.1 && keysOneColon kv.2

/-- Invariant of the bucketing fold: every stored non-`@` entry has a clean
key and a value whose keys hold at most one colon. -/
def topEntryOk (kv : String × JVal) : Bool :=
  if strStartsWith kv.1 ("@") then noBadKeys kv.2
  else !(keyNeedsChange kv.1) && keysOneColon kv.2

/-- The claim's conclusion about a normalized asset: every top-level key
either starts with `@` or contains no `:`/`.`, and every value is free of
`:`/`.` keys at all depths. -/
def assetKeysClean (entries : JObj) : Bool :=
  entries.all fun kv =>
    if strStartsWith kv.1 ("@") then noBadKeys kv.2
    else !(keyNeedsChange kv.1) && noBadKeys kv.2

/-!  ### Python primitives used by the asset enrichment -/

/-- Python `str(v)` as interpolated into an f-string (containers rendered
schematically; no claim evaluates them). -/
def pyStr : JVal → String
  | .null => ("None")
  | .bool true => ("True")
  | .bool false => ("False")
  | .num n => toString n
  | .str s => s
  | .arr _ => ("<list>")
  | .obj _ => ("<dict>")

/-- Python `needle in v` with a string on the left: key test on a dict,
membership on a list, substring test on a string, `TypeError` otherwise. -/
def pyIn (needle : String) : JVal → Except String Bool
  | .obj es => .ok (es.any fun kv => kv.1 == needle)
  | .arr items => .ok (items.contains (.str needle))
  | .str s => .ok (strContains s needle)
  | _ => .error ("TypeError: argument not iterable")

/-- Python `v[k]` with a string key. -/
def pySubscript (v : JVal) (k : String) : Except String JVal :=
  match v with
  | .obj es =>
    match JVal.getKey es k with
    | some x => .ok x
    | none => .error ("KeyError")
  | _ => .error ("TypeError: not subscriptable by string")

/-!  ### `_extract_wkt_from_obj` (src/InitialFillStep.py, lines 825-855)

The function is only ever called on already-normalized asset objects
(`_enrich_geometry` from `_insert_assets`), yet its Lambert72/Lambert2008
branch tests the *dotted* pre-normalization key names
(`'DtcCoord.lambert72' in geom_container`,
`coords['DtcCoordLambert72.xcoordinaat']`); this embedding reproduces those
literal keys. -/

/-- The `POINT Z (x y z)` synthesis shared by the two coordinate branches
(lines 845-850). -/
def puntWktFrom (gc : JVal) (coordKey xKey yKey zKey : String) : Except String (Option JVal) :=
  match pySubscript gc coordKey with
  | .error e => .error e
  | .ok coords =>
    match pySubscript coords xKey, pySubscript coords yKey, pySubscript coords zKey with
    | .ok x, .ok y, .ok z =>
        .ok (some (.str (("POINT Z (") ++ pyStr x ++ (" ") ++ pyStr y ++ (" ") ++ pyStr z ++ (")"))))
    | .error e, _, _ => .error e
    | _, .error e, _ => .error e
    | _, _, .error e => .error e

/-- Lines 841-854: the `Locatie_puntlocatie` branch. -/
def extractWktPunt (lo : JObj) : Except String (Option JVal) :=
  match JVal.getKey lo ("Locatie_puntlocatie") with
  | none => .ok none
  | some pl =>
    if pl.truthy then
      match pl with
      | .obj po =>
        match JVal.getKey po ("3Dpunt_puntgeometrie") with
        | none => .ok none
        | some gc =>
          if gc.truthy then
            match pyIn ("DtcCoord.lambert72") gc with
            | .error e => .error e
            | .ok true =>
                puntWktFrom gc ("DtcCoord.lambert72") ("DtcCoordLambert72.xcoordinaat")
                  ("DtcCoordLambert72.ycoordinaat") ("DtcCoordLambert72.zcoordinaat")
            | .ok false =>
              match pyIn ("DtcCoord.lambert2008") gc with
              | .error e => .error e
              | .ok true =>
                  puntWktFrom gc ("DtcCoord.lambert2008") ("DtcCoordLambert2008.xcoordinaat")
                    ("DtcCoordLambert2008.ycoordinaat") ("DtcCoordLambert2008.zcoordinaat")
              | .ok false => .ok none
          else .ok none
      | _ => .error ("AttributeError: get on non-dict")
    else .ok none

/-- Lines 836-854: the `loc` branch. -/
def extractWktLoc (o : JObj) : Except String (Option JVal) :=
  match JVal.getKey o ("loc") with
  | none => .ok none
  | some (.obj lo) =>
    match JVal.getKey lo ("Locatie_geometrie") with
    | some lg => if lg.truthy then .ok (some lg) else extractWktPunt lo
    | none => extractWktPunt lo
  | some _ => .error ("AttributeError: loc.get on non-dict")

/-- `_extract_wkt_from_obj(obj)` (lines 825-855).  `.ok (some w)` is a
returned WKT value, `.ok none` the `return None` paths, `.error` a raised
exception. -/
def extractWkt (o : JObj) : Except String (Option JVal) :=
  match JVal.getKey o ("geo") with
  | some (.obj ge) =>
    match JVal.getKey ge ("Geometrie_log") with
    | some glog =>
      if glog.truthy then
        match glog with
        | .arr (first :: _) =>
          match first with
          | .obj fo =>
            match JVal.getKey fo ("DtcLog_geometrie") with
            | some gd =>
              if gd.truthy then
                match gd with
                | .obj ((_, v) :: _) => .ok (some v)
                | _ => .error ("AttributeError: values on non-dict")
              else extractWktLoc o
            | none => extractWktLoc o
          | _ => .error ("AttributeError: get on non-dict")
        | _ => .error ("TypeError: first item of non-list")
      else extractWktLoc o
    | none => extractWktLoc o
  | some _ => .error ("AttributeError: geo.get on non-dict")
  | none => extractWktLoc o

/-!  ### `_fast_point_wgs84_from_wkt3812` (src/InitialFillStep.py, lines 926-958) -/

/-- The last index of `c` in `cs` (`s.rfind(c)`), or `none` for -1. -/
def lastIdxOf (cs : List Char) (c : Char) : Option Nat :=
  match cs.reverse.findIdx? (· = c) with
  | some i => some (cs.length - 1 - i)
  | none => none

/-- Helper for `splitWs`: `acc` holds the current token reversed. -/
def splitWsGo : List Char → List Char → List String
  | [], acc => if acc.isEmpty then [] else [⟨acc.reverse⟩]
  | c :: rest, acc =>
      if c.isWhitespace then
        if acc.isEmpty then splitWsGo rest [] else ⟨acc.reverse⟩ :: splitWsGo rest []
      else splitWsGo rest (c :: acc)

/-- Python `s.split()`: split on whitespace runs, discarding empty parts. -/
def splitWs (cs : List Char) : List String := splitWsGo cs []

/-- `_fast_point_wgs84_from_wkt3812(wkt_string, transformer)`.
`numPipe a b` models `float(a), float(b)` followed by
`transformer.transform(x, y)`; `numPipe a b = none` models any exception in
that numeric pipeline, which the enclosing `try` turns into `return None`. -/
def fastPoint (numPipe : String → String → Option (JVal × JVal)) (wktString : String) :
    Option JVal :=
  let s0 := strStrip wktString
  let afterSrid : Option String :=
    if strStartsWith (strToUpper s0) ("SRID=") then
      if s0.data.contains ';' then some (strStrip ⟨(s0.data.dropWhile (· ≠ ';')).drop 1⟩)
      else none
    else some s0
  match afterSrid with
  | none => none
  | some s =>
    if !(strStartsWith (strToUpper s) ("POINT")) then none
    else
      match s.data.findIdx? (· = '('), lastIdxOf s.data ')' with
      | some start, some stop =>
        if stop ≤ start then none
        else
          let inner := (s.data.drop (start + 1)).take (stop - start - 1)
          let nums := splitWs (inner.map fun c => if c = ',' then ' ' else c)
          if nums.length < 2 then none
          else
            match nums with
            | a :: b :: _ =>
              match numPipe a b with
              | some (lon, lat) =>
                  some (.obj [(("type"), .str ("Point")), (("coordinates"), .arr [lon, lat])])
              | none => none
            | _ => none
      | _, _ => none

/-!  ### `_enrich_geometry` (src/InitialFillStep.py, lines 629-650) -/

/-- Python `len(v)`. -/
def pyLen : JVal → Except String Nat
  | .str s => .ok s.data.length
  | .arr items => .ok items.length
  | .obj es => .ok es.length
  | _ => .error ("TypeError: object has no len")

/-- Lines 647-648: truncate a shapely Point's coordinates to 2D. -/
def truncPointGeo (g : JVal) : Except String JVal :=
  match g with
  | .obj ges =>
    if JVal.getKey ges ("type") = some (.str ("Point")) then
      match pyLen ((JVal.getKey ges ("coordinates")).getD (.arr [])) with
      | .error e => .error e
      | .ok n =>
        if n ≥ 3 then
          match JVal.getKey ges ("coordinates") with
          | some (.arr cs) => .ok (.obj (JVal.setKey ges ("coordinates") (.arr (cs.take 2))))
          | some (.str s) => .ok (.obj (JVal.setKey ges ("coordinates") (.str (strTake s 2))))
          | _ => .error ("TypeError: unsliceable")
        else .ok g
    else .ok g
  | _ => .error ("AttributeError: get on non-dict")

/-- Lines 642-643 of the shapely fallback: `w.split(";", 1)[1]` after an
`SRID=` prefix (an `IndexError` when there is no `;` — this split is not
inside a `try`). -/
def stripSridForShapely (s : String) : Except String String :=
  if strStartsWith (strToUpper s) ("SRID=") then
    if s.data.contains ';' then .ok ⟨(s.data.dropWhile (· ≠ ';')).drop 1⟩
    else .error ("IndexError: list index out of range")
  else .ok s

/-- `_enrich_geometry(obj)` (lines 629-650).  `shapely` abstracts
`wkt.loads` + pyproj `transform` + `mapping` (lines 644-646); `numPipe` as
in `fastPoint`. -/
def enrichGeometry (numPipe : String → String → Option (JVal × JVal))
    (shapely : String → Except String JVal) (o : JObj) : Except String JObj :=
  match extractWkt o with
  | .error e => .error e
  | .ok none => .ok o
  | .ok (some w) =>
    if !w.truthy then .ok o
    else
      let o1 := JVal.setKey o ("wkt") w
      match w with
      | .str s =>
        match fastPoint numPipe s with
        | some gj => .ok (JVal.setKey o1 ("geometry") gj)
        | none =>
          match stripSridForShapely s with
          | .error e => .error e
          | .ok w2v =>
            match shapely w2v with
            | .error e => .error e
            | .ok geom =>
              match truncPointGeo geom with
              | .error e => .error e
              | .ok gj => .ok (JVal.setKey o1 ("geometry") gj)
      | _ => .error ("AttributeError: strip on non-str")

/-!  ### `_enrich_state_and_naampad` (src/InitialFillStep.py, lines 652-662) -/

def enrichStateAndNaampad (o : JObj) : Except String JObj :=
  let step1 : Except String JObj :=
    match JVal.getKey o ("AIMToestand_toestand") with
    | some t =>
      if t.truthy then
        match t with
        | .str s => .ok (JVal.setKey o ("toestand") (.str (lastSegment s)))
        | _ => .error ("AttributeError: split on non-str")
      else .ok o
    | none => .ok o
  match step1 with
  | .error e => .error e
  | .ok o1 =>
    match JVal.getKey o1 ("NaampadObject_naampad") with
    | some np =>
      if np.truthy then
        match np with
        | .str s =>
          let parts := splitOnChar '/' s
          let o2 := JVal.setKey o1 ("naampad_parts") (.arr (parts.map .str))
          if parts.length ≥ 2 then
            .ok (JVal.setKey o2 ("naampad_parent") (.str (joinWith ("/") parts.dropLast)))
          else .ok o2
        | _ => .error ("AttributeError: split on non-str")
      else .ok o1
    | none => .ok o1

/-!  ### `_enrich_toezicht_keys` (src/InitialFillStep.py, lines 664-687) -/

/-- `d.get(k, {})` followed by attribute access on the result: the present
value must be a dict; an absent key gives the empty dict. -/
def getOrEmptyDict (es : JObj) (k : String) : Except String JObj :=
  match JVal.getKey es k with
  | none => .ok []
  | some (.obj b) => .ok b
  | some _ => .error ("AttributeError: get on non-dict")

/-- `obj[outKey] = v[:8]` guarded by `if v:` (lines 676-681). -/
def setSliced8 (o : JObj) (outKey : String) (v : Option JVal) : Except String JObj :=
  match v with
  | some x =>
    if x.truthy then
      match x with
      | .str s => .ok (JVal.setKey o outKey (.str (strTake s 8)))
      | .arr xs => .ok (JVal.setKey o outKey (.arr (xs.take 8)))
      | _ => .error ("TypeError: not subscriptable")
    else .ok o
  | none => .ok o

/-- `_enrich_toezicht_keys(obj)` with the (always-populated at this point)
`beheerders_lookup` as the `beheerders` parameter. -/
def enrichToezichtKeys (beheerders : String → Option String) (o : JObj) :
    Except String JObj :=
  match JVal.getKey o ("tz") with
  | some (.obj tzg) =>
    match getOrEmptyDict tzg ("Toezicht_toezichtgroep") with
    | .error e => .error e
    | .ok d1 =>
      match setSliced8 o ("toezichtgroep_key") (JVal.getKey d1 ("DtcToezichtGroep_id")) with
      | .error e => .error e
      | .ok o1 =>
        match getOrEmptyDict tzg ("Toezicht_toezichter") with
        | .error e => .error e
        | .ok d2 =>
          match setSliced8 o1 ("toezichter_key") (JVal.getKey d2 ("DtcToezichter_id")) with
          | .error e => .error e
          | .ok o2 =>
            match getOrEmptyDict tzg ("Schadebeheerder_schadebeheerder") with
            | .error e => .error e
            | .ok d3 =>
              match JVal.getKey d3 ("DtcBeheerder_referentie") with
              | some r =>
                if r.truthy then
                  match r with
                  | .arr _ => .error ("TypeError: unhashable list")
                  | .obj _ => .error ("TypeError: unhashable dict")
                  | .str sref =>
                    match beheerders sref with
                    | some bk => if bk = "" then .ok o2 else .ok (JVal.setKey o2 ("beheerder_key") (.str bk))
                    | none => .ok o2
                  | _ => .ok o2
                else .ok o2
              | none => .ok o2
  | _ => .ok o

/-!  ### `_collect_bestekkoppelingen` (src/InitialFillStep.py, lines 689-709)

The Python loop mutates each koppeling dict in place; those same dict objects
are also referenced from `obj["bs"]["Bestek_bestekkoppeling"]`, so the asset
document sees the enriched koppelingen too.  The embedding returns both the
edge-document list and the correspondingly updated asset object.  `uuidGen n`
supplies `str(uuid.uuid4())` for the n-th edge generated in the page. -/

def collectBestekGo (uuidGen : Nat → String) (assetKey : String) :
    List JVal → Nat → Except String (List JObj × Nat)
  | [], ctr => .ok ([], ctr)
  | k :: rest, ctr =>
    match k with
    | .obj ko =>
      let k1 := JVal.setKey ko ("_from") (.str (("assets/") ++ assetKey))
      match JVal.getKey ko ("DtcBestekkoppeling_bestekId") with
      | none => .error ("KeyError: DtcBestekkoppeling_bestekId")
      | some bid =>
        match bid with
        | .obj bo =>
          match JVal.getKey bo ("DtcIdentificator_identificator") with
          | some (.str ident) =>
            let k2 := JVal.setKey k1 ("_to") (.str (("bestekken/") ++ strTake ident 8))
            let k3 := JVal.setKey k2 ("_key") (.str (uuidGen ctr))
            let k4 : Except String JObj :=
              match JVal.getKey k3 ("status") with
              | some st =>
                if st.truthy then
                  match st with
                  | .str s => .ok (JVal.setKey k3 ("status") (.str (lastSegment s)))
                  | _ => .error ("AttributeError: split on non-str")
                else .ok (JVal.setKey k3 ("status") .null)
              | none => .ok (JVal.setKey k3 ("status") .null)
            match k4 with
            | .error e => .error e
            | .ok k4v =>
              match collectBestekGo uuidGen assetKey rest (ctr + 1) with
              | .error e => .error e
              | .ok (tail, ctr2) => .ok (k4v :: tail, ctr2)
          | some _ => .error ("TypeError: slice or concat on non-str")
          | none => .error ("TypeError: subscript of None")
        | _ => .error ("AttributeError: get on non-dict")
    | _ => .error ("TypeError: item assignment")

def collectBestek (uuidGen : Nat → String) (o : JObj) (ctr : Nat) :
    Except String (JObj × List JObj × Nat) :=
  match getOrEmptyDict o ("bs") with
  | .error e => .error e
  | .ok bs =>
    match JVal.getKey bs ("Bestek_bestekkoppeling") with
    | none => .ok (o, [], ctr)
    | some bk =>
      if bk.truthy then
        match bk with
        | .arr ks =>
          match JVal.getKey o ("_key") with
          | some (.str ak) =>
            match collectBestekGo uuidGen ak ks ctr with
            | .error e => .error e
            | .ok (newKs, ctr2) =>
              let o2 := JVal.setKey o ("bs")
                (.obj (JVal.setKey bs ("Bestek_bestekkoppeling") (.arr (newKs.map .obj))))
              .ok (o2, newKs, ctr2)
          | some _ => .error ("TypeError: concat on non-str _key")
          | none => .error ("KeyError: _key")
        | _ => .error ("TypeError: not a list of dicts")
      else .ok (o, [], ctr)

/-!  ### `_insert_assets` (src/InitialFillStep.py, lines 549-627) -/

/-- `assettype_key = self.assettype_lookup.get(uri)` (line 605): `uri` is
whatever `obj.get("@type")` returned; unhashable values raise. -/
def assettypeLookupGet (assettypes : String → Option String) (uri : Option JVal) :
    Except String (Option String) :=
  match uri with
  | some (.str u) => .ok (assettypes u)
  | some (.arr _) => .error ("TypeError: unhashable list")
  | some (.obj _) => .error ("TypeError: unhashable dict")
  | _ => .ok none

/-- Outcome of the `_insert_assets` loop body for one record: an exception
(re-raised by the `except` at lines 620-622), a `continue` after the
unknown-type counter increment (lines 606-608), or a processed document with
its koppeling edges and the advanced uuid counter. -/
inductive AssetOutcome where
  | err (e : String)
  | skip
  | keep (doc : JObj) (kopps : List JObj) (ctr2 : Nat)
deriving DecidableEq

/-- The `_insert_assets` loop body (lines 586-622) for one raw record. -/
def processOneAsset (assettypes : String → Option String) (beheerders : String → Option String)
    (uuidGen : Nat → String) (numPipe : String → String → Option (JVal × JVal))
    (shapely : String → Except String JVal) (raw : JVal) (ctr : Nat) : AssetOutcome :=
  match raw with
  | .obj rawEntries =>
    let obj0 := normalizeAssetKeys rawEntries
    match (JVal.getKey obj0 ("@id")).getD (.str ("")) with
    | .str idv =>
      let obj1 := JVal.setKey obj0 ("_key") (.str (strTake (lastSegment idv) 36))
      match assettypeLookupGet assettypes (JVal.getKey obj0 ("@type")) with
      | .error e => .err e
      | .ok atkOpt =>
        match atkOpt with
        | none => .skip
        | some atkv =>
          if atkv = "" then .skip
          else
            match enrichGeometry numPipe shapely (JVal.setKey obj1 ("assettype_key") (.str atkv)) with
            | .error e => .err e
            | .ok obj3 =>
              match enrichStateAndNaampad obj3 with
              | .error e => .err e
              | .ok obj4 =>
                match enrichToezichtKeys beheerders obj4 with
                | .error e => .err e
                | .ok obj5 =>
                  match collectBestek uuidGen obj5 ctr with
                  | .error e => .err e
                  | .ok (obj6, kopps1, ctr2) => .keep obj6 kopps1 ctr2
    | _ => .err ("AttributeError: split on non-str @id")
  | _ => .err ("AttributeError: items on non-dict record")

/-- The per-page computation of `_insert_assets` (lines 549-627): returns
(asset documents, bestekkoppeling edge documents, unknown-`@type` count).
Chunked flushing (lines 578-584, 617-618, 624) only splits these same lists
across bulk-import calls and is not modelled separately.  `assettypes` and
`beheerders` are the two lazily-loaded lookups (uri → `_key`,
referentie → `_key`); the per-record `try`/`except` re-raises, so any
exception aborts the page (`.error`). -/
def insertAssetsGo (assettypes : String → Option String) (beheerders : String → Option String)
    (uuidGen : Nat → String) (numPipe : String → String → Option (JVal × JVal))
    (shapely : String → Except String JVal) :
    List JVal → Nat → Except String (List JObj × List JObj × Nat)
  | [], _ => .ok ([], [], 0)
  | raw :: rest, ctr =>
    match processOneAsset assettypes beheerders uuidGen numPipe shapely raw ctr with
    | .err e => .error e
    | .skip =>
      match insertAssetsGo assettypes beheerders uuidGen numPipe shapely rest ctr with
      | .error e => .error e
      | .ok (docs, kopps, unk) => .ok (docs, kopps, unk + 1)
    | .keep doc kopps1 ctr2 =>
      match insertAssetsGo assettypes beheerders uuidGen numPipe shapely rest ctr2 with
      | .error e => .error e
      | .ok (docs, kopps, unk) => .ok (doc :: docs, kopps1 ++ kopps, unk)

/-- `_insert_assets(db, dicts)` as a pure page computation. -/
def insertAssets (assettypes : String → Option String) (beheerders : String → Option String)
    (uuidGen : Nat → String) (numPipe : String → String → Option (JVal × JVal))
    (shapely : String → Except String JVal) (dicts : List JVal) :
    Except String (List JObj × List JObj × Nat) :=
  insertAssetsGo assettypes beheerders uuidGen numPipe shapely dicts 0

/-!  ### `_insert_asset_relations`

`_handle_assetrelaties` (src/InitialFillStep.py, line 424) calls
`self._insert_asset_relations(db, dicts)`, but no such method exists anywhere
in the source tree; only this caller does. -/

/-- Modelled from the spec: the missing `_insert_asset_relations` body,
following §4.5 "Asset-relations handler" — normalize keys (via
`_transform_keys`, as the sibling handlers do); `_key` := last path segment
of `@id` truncated to 36; `_from`/`_to` := `assets/` + first 36 chars of the
bron/doel `@id` tail; default `AIMDBStatus_isActief := true` when absent;
resolve `relatietype_key` by uri; skip (`.ok none`) records whose
relation-type is unknown.  Malformed bron/doel raise, mirroring the sibling
handler `_handle_betrokkenerelaties`. -/
def relationDoc (relatietypes : String → Option String) (r : JVal) :
    Except String (Option JObj) :=
  match transformKeys r with
  | .error e => .error e
  | .ok (.obj o) =>
    match (JVal.getKey o ("@id")).getD (.str ("")) with
    | .str idv =>
      let o1 := JVal.setKey o ("_key") (.str (strTake (lastSegment idv) 36))
      match JVal.getKey o1 ("RelatieObject_bron"), JVal.getKey o1 ("RelatieObject_doel") with
      | some (.obj bron), some (.obj doel) =>
        match (JVal.getKey bron ("@id")).getD (.str ("")),
              (JVal.getKey doel ("@id")).getD (.str ("")) with
        | .str bidv, .str didv =>
          let o2 := JVal.setKey o1 ("_from") (.str (("assets/") ++ strTake (lastSegment bidv) 36))
          let o3 := JVal.setKey o2 ("_to") (.str (("assets/") ++ strTake (lastSegment didv) 36))
          let o4 :=
            match JVal.getKey o3 ("AIMDBStatus_isActief") with
            | none => JVal.setKey o3 ("AIMDBStatus_isActief") (.bool true)
            | some _ => o3
          match JVal.getKey o4 ("@type") with
          | some (.str uri) =>
            match relatietypes uri with
            | some rk => .ok (some (JVal.setKey o4 ("relatietype_key") (.str rk)))
            | none => .ok none
          | _ => .ok none
        | _, _ => .error ("AttributeError: split on non-str bron/doel @id")
      | _, _ => .error ("KeyError: RelatieObject_bron/RelatieObject_doel")
    | _ => .error ("AttributeError: split on non-str @id")
  | .ok _ => .error ("AttributeError: items on non-dict record")

/-- Modelled from the spec: the page computation of the missing
`_insert_asset_relations` — the list of documents that are bulk-imported
(skipped records contribute nothing). -/
def insertAssetRelations (relatietypes : String → Option String) :
    List JVal → Except String (List JObj)
  | [] => .ok []
  | r :: rest =>
    match relationDoc relatietypes r with
    | .error e => .error e
    | .ok none => insertAssetRelations relatietypes rest
    | .ok (some d) =>
      match insertAssetRelations relatietypes rest with
      | .error e => .error e
      | .ok ds => .ok (d :: ds)

/-!  ### Offset paging (src/API/EMInfraClient.py, lines 56-82)

`get_resource_page` and `get_identity_resource_page` have identical paging
logic and differ only in the URL path. -/

structure PageResponse (α : Type) where
  fromOffset : Int
  size : Int
  totalCount : Int
  data : List α
deriving DecidableEq

/-- `if not start_from: start_from = 0` (lines 57-58): a falsy starting
offset (`None` or `0`) becomes 0. -/
def normalizeStartFrom (s : Option Int) : Int :=
  match s with
  | none => 0
  | some v => if v = 0 then 0 else v

/-- The `while True` loop of `get_resource_page` (lines 60-68): `server o`
is the parsed JSON response to the request with `from=o`; `fuel` bounds the
number of loop iterations observed. -/
def offsetIter {α : Type} (server : Int → PageResponse α) :
    Nat → Int → List (Option Int × List α)
  | 0, _ => []
  | fuel + 1, off =>
    let r := server off
    let nxt := r.fromOffset + r.size
    if nxt ≥ r.totalCount then [(none, r.data)]
    else (some nxt, r.data) :: offsetIter server fuel nxt

/-- `get_resource_page(resource, page_size, start_from)` (lines 56-68) as the
list of `(cursor, items)` yields. -/
def getResourcePageYields {α : Type} (server : Int → PageResponse α) (fuel : Nat)
    (startFrom : Option Int) : List (Option Int × List α) :=
  offsetIter server fuel (normalizeStartFrom startFrom)

/-- `get_identity_resource_page(resource, page_size, start_from)`
(lines 70-82): the same iteration against the identity API path. -/
def getIdentityResourcePageYields {α : Type} (server : Int → PageResponse α) (fuel : Nat)
    (startFrom : Option Int) : List (Option Int × List α) :=
  offsetIter server fuel (normalizeStartFrom startFrom)

/-!  ### Fill-loop write/persist ordering (src/InitialFillStep.py)

The DB interactions of one resource fill, as a trace of events.  A page is a
`(cursor, dicts)` pair yielded by the upstream generator. -/

inductive FillEvent (Rec : Type) where
  | write (recs : List Rec)
  | persistFrom (cursor : Option String)
  | markFilled
deriving DecidableEq

/-- The DB-write trace of the sequential fill loop
(`_fill_resource_using_emson`, lines 221-245; `_fill_resource_using_em_infra`
has the same write/persist structure, lines 325-355): write the page when
non-empty, then persist the cursor, and on a `None` cursor additionally
write the `fill: false, from: null` marker and break. -/
def seqFillEvents {Rec : Type} : List (Option String × List Rec) → List (FillEvent Rec)
  | [] => []
  | (c, ds) :: rest =>
    (if ds.isEmpty then [] else [FillEvent.write ds]) ++
      (FillEvent.persistFrom c ::
        match c with
        | none => [FillEvent.markFilled]
        | some _ => seqFillEvents rest)

/-- The items the pipeline producer (lines 250-262) places on the bounded
FIFO queue, in production order (`q.put((cursor, dicts))` for non-empty
pages, `q.put((cursor, []))` for empty ones, break after a `None` cursor;
the trailing `None` sentinel is represented by the end of the list). -/
def producerItems {Rec : Type} : List (Option String × List Rec) → List (Option String × List Rec)
  | [] => []
  | (c, ds) :: rest =>
    (c, ds) :: (match c with | none => [] | some _ => producerItems rest)

/-- The DB-write trace of the pipeline consumer (lines 264-289) over the
queued items.  The queue is a FIFO between exactly one producer and one
consumer, so the consumer receives items in production order under every
thread interleaving, and all DB events of the pipeline mode are issued
serially by the consumer. -/
def consumerEvents {Rec : Type} : List (Option String × List Rec) → List (FillEvent Rec)
  | [] => []
  | (c, ds) :: rest =>
    (if ds.isEmpty then [] else [FillEvent.write ds]) ++
      (FillEvent.persistFrom c ::
        match c with
        | none => [FillEvent.markFilled]
        | some _ => consumerEvents rest)

/-- The DB-write trace of the pipeline mode (`use_pipeline = True`,
lines 247-298). -/
def pipelineFillEvents {Rec : Type} (pages : List (Option String × List Rec)) :
    List (FillEvent Rec) :=
  consumerEvents (producerItems pages)

/-- The pages processed in one run: the prefix of the upstream yields up to
and including the first page with a `None` cursor. -/
def processedPages {Rec : Type} : List (Option String × List Rec) → List (Option String × List Rec)
  | [] => []
  | (c, ds) :: rest =>
    (c, ds) :: (match c with | none => [] | some _ => processedPages rest)

/-- The trace stated by the spec (§4.3 "Ordering", §4.5 step 5): per
processed page, records are written first (only for non-empty pages) and
`from := cursor` is persisted after — also for empty pages — and the
completion marker follows the final (`None`-cursor) page. -/
def specFillEvents {Rec : Type} (pages : List (Option String × List Rec)) :
    List (FillEvent Rec) :=
  ((processedPages pages).flatMap fun p =>
      (if p.2.isEmpty then [] else [FillEvent.write p.2]) ++ [FillEvent.persistFrom p.1]) ++
  (if (processedPages pages).any (fun p => p.1.isNone) then [FillEvent.markFilled] else [])

/-- The subsequence of persisted cursors in a trace. -/
def persistedCursors {Rec : Type} : List (FillEvent Rec) → List (Option String)
  | [] => []
  | FillEvent.persistFrom c :: rest => c :: persistedCursors rest
  | _ :: rest => persistedCursors rest

/-!  ### Extra Fill: derived per-relation-type edges (src/ExtraFillStep.py)

Rows and vertex documents carry the AQL-compared attributes as `JVal`
(`.null` for an absent attribute), so `== true` / `== @short` comparisons
are exact. -/

structure RelTypeRow where
  key : String
  short : JVal
deriving DecidableEq

structure AssetRelRow where
  id : String
  key : String
  fromId : String
  toId : String
  relatietypeKey : JVal
  isActief : JVal
deriving DecidableEq

structure VertexDoc where
  id : String
  isActief : JVal
deriving DecidableEq

structure DerivedEdge where
  fromId : String
  toId : String
  sourceEdgeId : String
  sourceEdgeKey : String
deriving DecidableEq

structure ParamState where
  fill : Bool
  fromVal : Option String
deriving DecidableEq

structure ExtraDB where
  relatietypes : List RelTypeRow
  assetrelaties : List AssetRelRow
  documents : List VertexDoc
  collections : List String
  derived : List (String × List DerivedEdge)
  params : List (String × ParamState)
deriving DecidableEq

def lookupAssoc {α : Type} : List (String × α) → String → Option α
  | [], _ => none
  | (k', v) :: rest, k => if k' = k then some v else lookupAssoc rest k

def strListHas : List String → String → Bool
  | [], _ => false
  | x :: xs, n => if x = n then true else strListHas xs n

def setAssoc {α : Type} (l : List (String × α)) (k : String) (v : α) : List (String × α) :=
  match l with
  | [] => [(k, v)]
  | (k', v') :: rest => if k' = k then (k, v) :: rest else (k', v') :: setAssoc rest k v

namespace ExtraDB

def hasCollection (db : ExtraDB) (name : String) : Bool := strListHas db.collections name

/-- `_ensure_edge_collection` (src/ExtraFillStep.py, lines 149-151). -/
def ensureEdgeCollection (db : ExtraDB) (name : String) : ExtraDB :=
  if db.hasCollection name then db
  else { db with collections := db.collections ++ [name] }

/-- `db.collection(name).truncate()` / `INSERT ... INTO name`. -/
def setDerived (db : ExtraDB) (name : String) (edges : List DerivedEdge) : ExtraDB :=
  { db with derived := setAssoc db.derived name edges }

def getDerived (db : ExtraDB) (name : String) : List DerivedEdge :=
  (lookupAssoc db.derived name).getD []

/-- `_mark_filled` (src/ExtraFillStep.py, lines 153-157). -/
def markFilled (db : ExtraDB) (paramsKey : String) : ExtraDB :=
  { db with params := setAssoc db.params paramsKey ⟨false, none⟩ }

/-- `FOR rt IN relatietypes FILTER rt.short == @short LIMIT 1 RETURN rt._key`. -/
def rtKeyByShort (db : ExtraDB) (short : String) : Option String :=
  (db.relatietypes.find? fun rt => rt.short == .str short).map (·.key)

/-- `DOCUMENT(id)`. -/
def document (db : ExtraDB) (id : String) : Option VertexDoc :=
  db.documents.find? fun d => d.id == id

/-- The set-based AQL query of `_fill_derived_edges` (lines 182-201):
rows of `assetrelaties` with the resolved relation-type key, an active edge
and two resolvable active endpoints, projected to derived edges. -/
def derivedEdgesQuery (db : ExtraDB) (rtKey : String) : List DerivedEdge :=
  (db.assetrelaties.filter fun e =>
    e.relatietypeKey == .str rtKey && e.isActief == .bool true &&
      (match db.document e.fromId, db.document e.toId with
       | some a, some b => a.isActief == .bool true && b.isActief == .bool true
       | _, _ => false)).map
    fun e => ⟨e.fromId, e.toId, e.id, e.key⟩

end ExtraDB

/-- The tail of `_fill_derived_edges` after ensure + truncate: resolve the
relation-type key and run the set-based insert query (lines 171-205). -/
def rebuildDerived (db1 : ExtraDB) (paramsKey edgeCollection relatietypeShort : String) :
    ExtraDB :=
  match db1.rtKeyByShort relatietypeShort with
  | none => db1.markFilled paramsKey
  | some rtKey =>
      (db1.setDerived edgeCollection (db1.derivedEdgesQuery rtKey)).markFilled paramsKey

/-- `_fill_derived_edges(db, params_key, edge_collection, relatietype_short)`
(src/ExtraFillStep.py, lines 159-205). -/
def fillDerivedEdges (db : ExtraDB) (paramsKey edgeCollection relatietypeShort : String) :
    ExtraDB :=
  rebuildDerived ((db.ensureEdgeCollection edgeCollection).setDerived edgeCollection [])
    paramsKey edgeCollection relatietypeShort

/-- `fill_voedt_relaties` (src/ExtraFillStep.py, lines 207-256): same steps
with the collection, params key and short name hardcoded. -/
def fillVoedtRelaties (db : ExtraDB) : ExtraDB :=
  let db1 := (db.ensureEdgeCollection ("voedt_relaties")).setDerived ("voedt_relaties") []
  match db1.rtKeyByShort ("Voedt") with
  | none => db1.markFilled ("fill_voedt_relaties")
  | some voedtKey =>
      (db1.setDerived ("voedt_relaties") (db1.derivedEdgesQuery voedtKey)).markFilled
        ("fill_voedt_relaties")

/-- `fill_sturing_relaties` (line 258-259). -/
def fillSturingRelaties (db : ExtraDB) : ExtraDB :=
  fillDerivedEdges db ("fill_sturing_relaties") ("sturing_relaties") ("Sturing")

/-- `fill_bevestiging_relaties` (line 261-262). -/
def fillBevestigingRelaties (db : ExtraDB) : ExtraDB :=
  fillDerivedEdges db ("fill_bevestiging_relaties") ("bevestiging_relaties") ("Bevestiging")

/-- `fill_hoortbij_relaties` (line 264-265). -/
def fillHoortbijRelaties (db : ExtraDB) : ExtraDB :=
  fillDerivedEdges db ("fill_hoortbij_relaties") ("hoortbij_relaties") ("HoortBij")

/-!  ### Schema provisioning (src/CreateDBStep.py, src/GenericDbFunctions.py) -/

inductive DBStep where
  | CREATE_DB
  | INITIAL_FILL
  | EXTRA_DATA_FILL
  | CREATE_INDEXES
  | APPLY_CONSTRAINTS
  | FINAL_SYNC
deriving DecidableEq

/-- Python `Enum` member `.name` (src/Enums.py, lines 6-12). -/
def DBStep.stepName : DBStep → String
  | .CREATE_DB => ("CREATE_DB")
  | .INITIAL_FILL => ("INITIAL_FILL")
  | .EXTRA_DATA_FILL => ("EXTRA_DATA_FILL")
  | .CREATE_INDEXES => ("CREATE_INDEXES")
  | .APPLY_CONSTRAINTS => ("APPLY_CONSTRAINTS")
  | .FINAL_SYNC => ("FINAL_SYNC")

structure GraphDef where
  name : String
  memberCollections : List String
deriving DecidableEq

structure Collection where
  name : String
  docs : JObj
deriving DecidableEq

/-- The target database as seen by `CreateDBStep`: named graphs and
collections of keyed documents. -/
structure ArangoDB where
  graphs : List GraphDef
  collections : List Collection
deriving DecidableEq

/-- Read a document by key from the (uniquely) named collection. -/
def getDocFromColls : List Collection → String → String → Option JVal
  | [], _, _ => none
  | c :: cs, cname, key =>
      if c.name = cname then JVal.getKey c.docs key else getDocFromColls cs cname key

/-- Upsert a document by key into the (uniquely) named collection. -/
def insertIntoColls : List Collection → String → String → JVal → List Collection
  | [], _, _, _ => []
  | c :: cs, cname, key, doc =>
      if c.name = cname then { c with docs := JVal.setKey c.docs key doc } :: cs
      else c :: insertIntoColls cs cname key doc

namespace ArangoDB

def hasCollection (db : ArangoDB) (name : String) : Bool :=
  db.collections.any fun c => c.name == name

def getDoc (db : ArangoDB) (cname key : String) : Option JVal :=
  getDocFromColls db.collections cname key

/-- `collection.insert(doc, overwrite=True)` / `insert_many`. -/
def insertDoc (db : ArangoDB) (cname key : String) (doc : JVal) : ArangoDB :=
  { db with collections := insertIntoColls db.collections cname key doc }

end ArangoDB

/-- `set_db_step(db, step)` (src/GenericDbFunctions.py, lines 6-9):
upsert `{_key: "db_step", value: step.name}` into `params`. -/
def setDbStep (db : ArangoDB) (step : DBStep) : ArangoDB :=
  db.insertDoc ("params") ("db_step") (.obj [(("value"), .str step.stepName)])

/-- Document collections created by `CreateDBStep` (lines 32-34). -/
def docCollectionNames : List String :=
  [("params"), ("assets"), ("assettypes"), ("relatietypes"), ("agents"),
   ("toezichtgroepen"), ("identiteiten"), ("beheerders"), ("bestekken"),
   ("vplankoppelingen"), ("aansluitingrefs")]

/-- Edge collections created by `CreateDBStep` (lines 35-39). -/
def edgeCollectionNames : List String :=
  [("assetrelaties"), ("betrokkenerelaties"), ("bestekkoppelingen"), ("aansluitingen"),
   ("voedt_relaties"), ("sturing_relaties"), ("bevestiging_relaties"), ("hoortbij_relaties")]

/-- The default feed-marker documents (lines 50-55). -/
def defaultFeedDocs : JObj :=
  [(("feed_assetrelaties"), .obj [(("page"), .num (-1)), (("event_uuid"), .null)]),
   (("feed_betrokkenerelaties"), .obj [(("page"), .num (-1)), (("event_uuid"), .null)]),
   (("feed_agents"), .obj [(("page"), .num (-1)), (("event_uuid"), .null)]),
   (("feed_assets"), .obj [(("page"), .num (-1)), (("event_uuid"), .null)])]

/-- `CreateDBStep.execute` (src/CreateDBStep.py, lines 11-65).  In the
reset branch, `delete_graph(..., drop_collections=True)` is modelled as
dropping each graph together with its member collections (collections
shared with another graph are dropped here too — no claim depends on that
corner of Arango's semantics), then every non-system collection is dropped,
the declared collections are created empty, the default feed markers are
inserted, and finally — in both branches — the step marker is set to
INITIAL_FILL. -/
def createDBStepExecute (db : ArangoDB) : ArangoDB :=
  if db.hasCollection ("params") then
    setDbStep db .INITIAL_FILL
  else
    let afterGraphs : ArangoDB :=
      { graphs := [],
        collections := db.collections.filter fun c =>
          !(db.graphs.any fun g => g.memberCollections.contains c.name) }
    let afterDrop : ArangoDB :=
      { afterGraphs with
        collections := afterGraphs.collections.filter (fun c => strStartsWith c.name ("_")) }
    let newColls : List Collection :=
      (docCollectionNames ++ edgeCollectionNames).map fun n => ⟨n, []⟩
    let afterCreate : ArangoDB :=
      { afterDrop with collections := afterDrop.collections ++ newColls }
    let afterSeed : ArangoDB :=
      defaultFeedDocs.foldl (fun d kv => d.insertDoc ("params") kv.1 kv.2) afterCreate
    setDbStep afterSeed .INITIAL_FILL

/-!  ### Concrete inputs used by the claim witnesses and counterexamples -/

/-- Concrete paging server for the C7 witness: pages of size 2 over a total
count of 5. -/
def c7Server : Int → PageResponse Nat := fun o =>
  { fromOffset := o, size := 2, totalCount := 5, data := [o.toNat] }

/-- A normalized asset object carrying Lambert-72 point coordinates under
the post-normalization (underscored) key names — exactly what
`_normalize_nested_keys` produces for a raw punt-locatie. -/
def lambert72NormalizedAsset : JObj :=
  [(("loc"), .obj [(("Locatie_puntlocatie"), .obj [(("3Dpunt_puntgeometrie"), .obj
      [(("DtcCoord_lambert72"), .obj
        [(("DtcCoordLambert72_xcoordinaat"), .num 100),
         (("DtcCoordLambert72_ycoordinaat"), .num 200),
         (("DtcCoordLambert72_zcoordinaat"), .num 0)])])])])]

/-- The same object with the dotted (pre-normalization) key names the code
actually tests for. -/
def lambert72DottedAsset : JObj :=
  [(("loc"), .obj [(("Locatie_puntlocatie"), .obj [(("3Dpunt_puntgeometrie"), .obj
      [(("DtcCoord.lambert72"), .obj
        [(("DtcCoordLambert72.xcoordinaat"), .num 100),
         (("DtcCoordLambert72.ycoordinaat"), .num 200),
         (("DtcCoordLambert72.zcoordinaat"), .num 0)])])])])]

/-- The raw wire-format asset whose normalization is `lambert72NormalizedAsset`:
the nested keys are dotted and namespaced on the wire. -/
def lambert72RawAsset : JObj :=
  [(("loc:Locatie.puntlocatie"), .obj [(("loc:3Dpunt.puntgeometrie"), .obj
      [(("loc:DtcCoord.lambert72"), .obj
        [(("loc:DtcCoordLambert72.xcoordinaat"), .num 100),
         (("loc:DtcCoordLambert72.ycoordinaat"), .num 200),
         (("loc:DtcCoordLambert72.zcoordinaat"), .num 0)])])])]

/-- A database state with `params` present and the step marker at CREATE_DB. -/
def c5ParamsDB : ArangoDB :=
  { graphs := [],
    collections :=
      [⟨("params"), [(("db_step"), .obj [(("value"), .str ("CREATE_DB"))]),
                     (("feed_assets"), .obj [(("page"), .num (-1)), (("event_uuid"), .null)])]⟩,
       ⟨("assets"), [(("a1"), .num 7)]⟩] }

/-- The shapely result used by the C9 witness: a 3D point. -/
def c9Point3 : JVal :=
  .obj [(("type"), .str ("Point")), (("coordinates"), .arr [.num 7, .num 8, .num 9])]

/-- `c9Point3` truncated to 2D. -/
def c9Point2 : JVal :=
  .obj [(("type"), .str ("Point")), (("coordinates"), .arr [.num 7, .num 8])]

/-- The asset object used by the C9 witness: a non-point WKT that the fast
path rejects. -/
def c9Obj : JObj := [(("loc"), .obj [(("Locatie_geometrie"), .str ("MULTI X"))])]

/-- The raw record used by the C10 witness: well-formed `@id`, unknown type. -/
def c10Raw : List (String × JVal) :=
  [(("@id"), .str ("https://x/id/asset/UNKNOWN-01")), (("@type"), .str ("zzz"))]

/-- The relation document before relation-type resolution: `_key`, `_from`,
`_to` as the spec prescribes (shared shape for the C3 statement). -/
def c3Pre (o : JObj) (idv bidv didv : String) : JObj :=
  JVal.setKey (JVal.setKey (JVal.setKey o ("_key") (.str (strTake (lastSegment idv) 36)))
    ("_from") (.str (("assets/") ++ strTake (lastSegment bidv) 36)))
    ("_to") (.str (("assets/") ++ strTake (lastSegment didv) 36))

/-- `c3Pre` with the `AIMDBStatus_isActief := true` default applied. -/
def c3Base (o : JObj) (idv bidv didv : String) : JObj :=
  match JVal.getKey (c3Pre o idv bidv didv) ("AIMDBStatus_isActief") with
  | none => JVal.setKey (c3Pre o idv bidv didv) ("AIMDBStatus_isActief") (.bool true)
  | some _ => c3Pre o idv bidv didv

/-- Relation-type lookup used by the C3 witness. -/
def c3WitLookup : String → Option String :=
  fun u => if u = ("uriVoedt") then some ("66bb") else none

/-- Wire-format relation record used by the C3 witness. -/
def c3WitRecord : JVal :=
  .obj [(("@id"), .str ("https://x/id/asset/RELID-0001")),
        (("@type"), .str ("uriVoedt")),
        (("RelatieObject.bron"), .obj [(("@id"), .str ("https://x/id/asset/BRON-0001"))]),
        (("RelatieObject.doel"), .obj [(("@id"), .str ("https://x/id/asset/DOEL-0001"))])]

/-- The normalization of `c3WitRecord`. -/
def c3WitObj : JObj :=
  [(("@id"), .str ("https://x/id/asset/RELID-0001")),
   (("@type"), .str ("uriVoedt")),
   (("RelatieObject_bron"), .obj [(("@id"), .str ("https://x/id/asset/BRON-0001"))]),
   (("RelatieObject_doel"), .obj [(("@id"), .str ("https://x/id/asset/DOEL-0001"))])]

/-!  ## Claim C7: offset paging -/

/-- C7: for every offset-paged resource iteration, a null (or missing)
starting offset is treated as 0; each step yields `(from + size, items)`
computed from the response while `from + size < totalCount`; and the
iteration terminates by yielding `(null, items)` on the first response with
`from + size ≥ totalCount`.  `get_identity_resource_page` iterates
identically to `get_resource_page`. -/
theorem offset_paging_c7 {α : Type} (server : Int → PageResponse α) (fuel : Nat) (off : Int)
    (startFrom : Option Int) :
    normalizeStartFrom none = 0 ∧
    getIdentityResourcePageYields server fuel startFrom =
      getResourcePageYields server fuel startFrom ∧
    ((server off).fromOffset + (server off).size < (server off).totalCount →
      offsetIter server (fuel + 1) off =
        (some ((server off).fromOffset + (server off).size), (server off).data) ::
          offsetIter server fuel ((server off).fromOffset + (server off).size)) ∧
    ((server off).fromOffset + (server off).size ≥ (server off).totalCount →
      offsetIter server (fuel + 1) off = [(none, (server off).data)]) := by
  refine ⟨rfl, rfl, ?_, ?_⟩
  · intro h
    unfold offsetIter
    rw [if_neg (by omega)]
    cases fuel <;> rfl
  · intro h
    unfold offsetIter
    rw [if_pos (by omega)]

/-- Witness for C7 at a concrete server: a middle page and the final page. -/
theorem offset_paging_c7_witness :
    offsetIter c7Server 3 0 = (some 2, [0]) :: offsetIter c7Server 2 2 ∧
    offsetIter c7Server 1 4 = [(none, [4])] :=
  ⟨(offset_paging_c7 c7Server 2 0 none).2.2.1 (by decide),
   (offset_paging_c7 c7Server 0 4 none).2.2.2 (by decide)⟩

/-!  ## Claim C2: WKT extraction priority (code bug in priorities 3 and 4)

`_insert_assets` fully normalizes every asset before `_enrich_geometry` runs
(lines 589-599), so the keys below `loc` are underscored
(`DtcCoord_lambert72`); `_extract_wkt_from_obj` however tests the dotted
pre-normalization names (`'DtcCoord.lambert72' in geom_container`,
line 845) and so never synthesizes `POINT Z` for a normalized object — it
logs "Unknown geometry type" and returns `None`. -/

/-- C2 evaluated at the failing input: normalization turns the raw record
into the underscored form; on it `_extract_wkt_from_obj` returns `None` and
`_enrich_geometry` leaves the object unchanged (no `wkt`, no `geometry`),
while the claim and spec require `POINT Z (100 200 0)`.  On the dotted
pre-normalization keys — which the function can never see from
`_insert_assets` — the branch does synthesize exactly that WKT. -/
theorem extractWkt_lambert72_c2 :
    normalizeAssetKeys lambert72RawAsset = lambert72NormalizedAsset ∧
    extractWkt lambert72NormalizedAsset = .ok none ∧
    enrichGeometry (fun _ _ => none) (fun _ => .error ("unused")) lambert72NormalizedAsset =
      .ok lambert72NormalizedAsset ∧
    extractWkt lambert72DottedAsset = .ok (some (.str ("POINT Z (100 200 0)"))) := by
  decide

/-!  ## Claim C5: schema provisioning when `params` exists -/

theorem getDocFromColls_insert_self (colls : List Collection) (cname key : String) (doc : JVal)
    (h : (colls.any fun c => c.name == cname) = true) :
    getDocFromColls (insertIntoColls colls cname key doc) cname key = some doc := by
  induction colls with
  | nil => simp at h
  | cons c cs ih =>
      by_cases hc : c.name = cname
      · simp [insertIntoColls, getDocFromColls, hc]
      · simp only [List.any_cons, Bool.or_eq_true, beq_iff_eq] at h
        simp only [insertIntoColls, getDocFromColls, if_neg hc]
        exact ih (by simpa [hc] using h)

theorem getDocFromColls_insert_other (colls : List Collection) (cname key : String) (doc : JVal)
    (cname2 key2 : String) (h : ¬(cname2 = cname ∧ key2 = key)) :
    getDocFromColls (insertIntoColls colls cname key doc) cname2 key2 =
      getDocFromColls colls cname2 key2 := by
  induction colls with
  | nil => simp [insertIntoColls, getDocFromColls]
  | cons c cs ih =>
      by_cases hc : c.name = cname
      · by_cases hc2 : c.name = cname2
        · have hn : cname = cname2 := hc ▸ hc2
          have hkeys : key2 ≠ key := fun hk => h ⟨hn.symm, hk⟩
          simp [insertIntoColls, getDocFromColls, hc, hc2, hn,
            JVal.getKey_setKey_ne _ _ _ _ (Ne.symm hkeys)]
        · have hn : ¬ cname = cname2 := fun hx => hc2 (hc.trans hx)
          simp [insertIntoColls, getDocFromColls, hc, hc2, hn]
      · by_cases hc2 : c.name = cname2
        · have hn : ¬ cname2 = cname := fun hx => hc (hc2.trans hx)
          simp [insertIntoColls, getDocFromColls, hc, hc2, hn]
        · simp [insertIntoColls, getDocFromColls, hc, hc2, ih]

theorem insertIntoColls_names (colls : List Collection) (cname key : String) (doc : JVal) :
    (insertIntoColls colls cname key doc).map Collection.name = colls.map Collection.name := by
  induction colls with
  | nil => rfl
  | cons c cs ih =>
      by_cases hc : c.name = cname <;> simp [insertIntoColls, hc, ih]

/-- C5 counterexample: with `params` present, `CreateDBStep.execute` is not a
no-op — line 65 runs `set_db_step(db, DBStep.INITIAL_FILL)` unconditionally
and overwrites the `db_step` marker. -/
theorem createDBStep_c5_counterexample :
    createDBStepExecute c5ParamsDB ≠ c5ParamsDB ∧
    (createDBStepExecute c5ParamsDB).getDoc ("params") ("db_step") =
      some (.obj [(("value"), .str ("INITIAL_FILL"))]) ∧
    c5ParamsDB.getDoc ("params") ("db_step") =
      some (.obj [(("value"), .str ("CREATE_DB"))]) := by
  decide

/-- C5 (amended): if `params` exists when the Schema Provisioner runs, no
graphs or collections are dropped or created, no feed documents are
inserted, and every document other than the `db_step` step marker is left
unchanged; the only effect is that `db_step` is upserted to INITIAL_FILL. -/
theorem createDBStep_c5_params_frame (db : ArangoDB)
    (h : db.hasCollection ("params") = true) :
    (createDBStepExecute db).graphs = db.graphs ∧
    (createDBStepExecute db).collections.map Collection.name =
      db.collections.map Collection.name ∧
    (∀ cname key, ¬(cname = ("params") ∧ key = ("db_step")) →
      (createDBStepExecute db).getDoc cname key = db.getDoc cname key) ∧
    (createDBStepExecute db).getDoc ("params") ("db_step") =
      some (.obj [(("value"), .str ("INITIAL_FILL"))]) := by
  have hex : createDBStepExecute db = setDbStep db .INITIAL_FILL := by
    unfold createDBStepExecute
    rw [if_pos h]
  rw [hex]
  refine ⟨rfl, ?_, ?_, ?_⟩
  · exact insertIntoColls_names db.collections _ _ _
  · intro cname key hne
    exact getDocFromColls_insert_other db.collections _ _ _ cname key hne
  · exact getDocFromColls_insert_self db.collections _ _ _ h

/-- Witness for C5 (amended) at `c5ParamsDB`: the sibling feed document is
untouched and the step marker is INITIAL_FILL. -/
theorem createDBStep_c5_params_frame_witness :
    c5ParamsDB.hasCollection ("params") = true ∧
    (createDBStepExecute c5ParamsDB).getDoc ("params") ("feed_assets") =
      c5ParamsDB.getDoc ("params") ("feed_assets") ∧
    (createDBStepExecute c5ParamsDB).getDoc ("params") ("db_step") =
      some (.obj [(("value"), .str ("INITIAL_FILL"))]) :=
  ⟨by decide,
   (createDBStep_c5_params_frame c5ParamsDB (by decide)).2.2.1 ("params") ("feed_assets")
     (by decide),
   (createDBStep_c5_params_frame c5ParamsDB (by decide)).2.2.2⟩

/-!  ## Claim C6: writes happen before cursor persistence, in page order -/

theorem persistedCursors_append {Rec : Type} (l1 l2 : List (FillEvent Rec)) :
    persistedCursors (l1 ++ l2) = persistedCursors l1 ++ persistedCursors l2 := by
  induction l1 with
  | nil => rfl
  | cons e rest ih => cases e <;> simp [persistedCursors, ih]

theorem seqFillEvents_eq_spec {Rec : Type} (pages : List (Option String × List Rec)) :
    seqFillEvents pages = specFillEvents pages := by
  induction pages with
  | nil => rfl
  | cons p rest ih =>
      obtain ⟨c, ds⟩ := p
      cases c with
      | none =>
          simp [seqFillEvents, specFillEvents, processedPages]
      | some c0 =>
          simp only [seqFillEvents, specFillEvents, processedPages, List.flatMap_cons,
            List.any_cons, ih, List.append_assoc, List.cons_append, List.nil_append,
            List.singleton_append]
          simp only [Option.isNone_some, Bool.false_or]

theorem pipelineFillEvents_eq_seq {Rec : Type} (pages : List (Option String × List Rec)) :
    pipelineFillEvents pages = seqFillEvents pages := by
  unfold pipelineFillEvents
  induction pages with
  | nil => rfl
  | cons p rest ih =>
      obtain ⟨c, ds⟩ := p
      cases c with
      | none => simp [producerItems, consumerEvents, seqFillEvents]
      | some c0 => simp [producerItems, consumerEvents, seqFillEvents, ih]

theorem persistedCursors_seq {Rec : Type} (pages : List (Option String × List Rec)) :
    persistedCursors (seqFillEvents pages) = (processedPages pages).map Prod.fst := by
  induction pages with
  | nil => rfl
  | cons p rest ih =>
      obtain ⟨c, ds⟩ := p
      cases c with
      | none =>
          cases hds : ds.isEmpty <;>
            simp [seqFillEvents, processedPages, persistedCursors, hds, persistedCursors_append]
      | some c0 =>
          cases hds : ds.isEmpty <;>
            simp [seqFillEvents, processedPages, persistedCursors, hds,
              persistedCursors_append, ih]

/-!  ## Claim C8: `_transform_keys` is not idempotent in general -/

theorem setKey_any_eq_false {l : JObj} {k k2 : String} {v : JVal}
    (hl : (l.any fun kv => kv.1 == k2) = false) (hk : (k == k2) = false) :
    ((JVal.setKey l k v).any fun kv => kv.1 == k2) = false := by
  induction l with
  | nil => simpa [JVal.setKey] using hk
  | cons hd tl ih =>
      obtain ⟨k', v'⟩ := hd
      simp only [List.any_cons, Bool.or_eq_false_iff] at hl
      by_cases h : k' = k
      · simp [JVal.setKey, h, hl.1, hl.2, hk]
      · simp [JVal.setKey, h, hl.1, ih hl.2]

theorem nodupKeysObj_setKey {l : JObj} {k : String} {v : JVal}
    (hl : nodupKeysObj l = true) (hv : nodupKeysJ v = true) :
    nodupKeysObj (JVal.setKey l k v) = true := by
  induction l with
  | nil => simp [JVal.setKey, nodupKeysObj, hv]
  | cons hd tl ih =>
      obtain ⟨k', v'⟩ := hd
      simp only [nodupKeysObj, Bool.and_eq_true] at hl
      obtain ⟨⟨h1, h2⟩, h3⟩ := hl
      by_cases h : k' = k
      · subst h
        simp only [JVal.setKey, if_pos rfl, nodupKeysObj, Bool.and_eq_true]
        exact ⟨⟨h1, hv⟩, h3⟩
      · simp only [JVal.setKey, if_neg h, nodupKeysObj, Bool.and_eq_true]
        refine ⟨⟨?_, h2⟩, ih h3⟩
        have hne : ¬(k = k') := fun hh => h hh.symm
        have hb : (k == k') = false := by
          simp only [beq_eq_false_iff_ne]
          exact hne
        simp only [Bool.not_eq_true'] at h1 ⊢
        exact setKey_any_eq_false h1 hb

theorem nodupKeysJ_of_getKey {l : JObj} {k : String} {v : JVal}
    (hl : nodupKeysObj l = true) (hget : JVal.getKey l k = some v) :
    nodupKeysJ v = true := by
  induction l with
  | nil => simp [JVal.getKey] at hget
  | cons hd tl ih =>
      obtain ⟨k', v'⟩ := hd
      simp only [nodupKeysObj, Bool.and_eq_true] at hl
      simp only [JVal.getKey] at hget
      by_cases h : k' = k
      · rw [if_pos h] at hget
        cases hget
        exact hl.1.2
      · rw [if_neg h] at hget
        exact ih hl.2 hget

theorem transformNestedObj_nodup (entries : List (String × JVal)) (acc : JObj)
    (hvals : ∀ kv ∈ entries, nodupKeysJ (transformNested kv.2) = true)
    (hacc : nodupKeysObj acc = true) :
    nodupKeysObj (transformNestedObj entries acc) = true := by
  induction entries generalizing acc with
  | nil => simpa [transformNestedObj] using hacc
  | cons kv rest ih =>
      obtain ⟨k, v⟩ := kv
      simp only [transformNestedObj]
      exact ih _ (fun kv2 h2 => hvals kv2 (List.mem_cons_of_mem _ h2))
        (nodupKeysObj_setKey hacc (hvals (k, v) (List.mem_cons_self _ _)))

theorem transformNested_nodup : ∀ j, nodupKeysJ (transformNested j) = true := by
  intro j
  induction j using JVal.inductionOn with
  | hnull => rfl
  | hbool b => rfl
  | hnum n => rfl
  | hstr s => rfl
  | harr items ih =>
      simp only [transformNested, nodupKeysJ]
      induction items with
      | nil => rfl
      | cons x xs ihx =>
          simp only [transformNestedList, nodupKeysList, Bool.and_eq_true]
          exact ⟨ih x (by simp), ihx (fun j hj => ih j (by simp [hj]))⟩
  | hobj entries ih =>
      simp only [transformNested, nodupKeysJ]
      exact transformNestedObj_nodup entries [] (fun kv h => ih kv h) rfl

theorem transformTopObj_nodup (entries : List (String × JVal)) :
    ∀ (acc r : JObj), nodupKeysObj acc = true → transformTopObj entries acc = .ok r →
    nodupKeysObj r = true := by
  induction entries with
  | nil =>
      intro acc r hacc h
      simp only [transformTopObj] at h
      cases h
      exact hacc
  | cons kv rest ih =>
      obtain ⟨k, v⟩ := kv
      intro acc r hacc h
      simp only [transformTopObj] at h
      rcases hsplit : splitFirstColon k with _ | ⟨ns, field⟩
      · rw [hsplit] at h
        dsimp only at h
        exact ih _ _ (nodupKeysObj_setKey hacc (transformNested_nodup v)) h
      · rw [hsplit] at h
        dsimp only at h
        rcases hget : JVal.getKey acc ns with _ | w
        · rw [hget] at h
          dsimp only at h
          refine ih _ _ (nodupKeysObj_setKey hacc ?_) h
          simp [nodupKeysJ, nodupKeysObj, transformNested_nodup v]
        · rw [hget] at h
          cases w with
          | obj bucket =>
              dsimp only at h
              refine ih _ _ (nodupKeysObj_setKey hacc ?_) h
              have hb : nodupKeysObj bucket = true := nodupKeysJ_of_getKey hacc hget
              simp only [nodupKeysJ]
              exact nodupKeysObj_setKey hb (transformNested_nodup v)
          | null => simp at h
          | bool b => simp at h
          | num n => simp at h
          | str s => simp at h
          | arr items => simp at h

theorem transformTopList_nodup (items : List JVal) :
    ∀ ys, (∀ j ∈ items, ∀ r, transformTop j = .ok r → nodupKeysJ r = true) →
    transformTopList items = .ok ys → nodupKeysList ys = true := by
  induction items with
  | nil =>
      intro ys _ h
      simp only [transformTopList] at h
      cases h
      rfl
  | cons x xs ih =>
      intro ys hih h
      simp only [transformTopList] at h
      rcases hx : transformTop x with e | y
      · rw [hx] at h
        cases h
      · rw [hx] at h
        rcases hxs : transformTopList xs with e | ys2
        · rw [hxs] at h
          cases h
        · rw [hxs] at h
          cases h
          simp only [nodupKeysList, Bool.and_eq_true]
          exact ⟨hih x (by simp) y hx,
            ih ys2 (fun j hj r hr => hih j (by simp [hj]) r hr) hxs⟩

theorem transformTop_nodup : ∀ (j r : JVal), transformTop j = .ok r → nodupKeysJ r = true := by
  intro j
  induction j using JVal.inductionOn with
  | hnull => intro r h; cases h; rfl
  | hbool b => intro r h; cases h; rfl
  | hnum n => intro r h; cases h; rfl
  | hstr s => intro r h; cases h; rfl
  | harr items ih =>
      intro r h
      simp only [transformTop, Except.map] at h
      rcases hl : transformTopList items with e | ys
      · rw [hl] at h
        cases h
      · rw [hl] at h
        cases h
        simp only [nodupKeysJ]
        exact transformTopList_nodup items ys ih hl
  | hobj entries ih =>
      intro r h
      simp only [transformTop, Except.map] at h
      rcases hl : transformTopObj entries [] with e | es
      · rw [hl] at h
        cases h
      · rw [hl] at h
        cases h
        simp only [nodupKeysJ]
        exact transformTopObj_nodup entries [] es rfl hl

theorem map_dotRepl_eq_self {l : List Char} (h : (l.contains '.') = false) :
    l.map (fun c => if c = '.' then '_' else c) = l := by
  induction l with
  | nil => rfl
  | cons c rest ih =>
      simp only [List.contains_cons, Bool.or_eq_false_iff, beq_eq_false_iff_ne] at h
      have hc : ¬(c = '.') := fun hh => h.1 hh.symm
      simp only [List.map_cons, if_neg hc, ih h.2]

theorem dotToUnderscore_eq_self {k : String} (h : (k.data.contains '.') = false) :
    dotToUnderscore k = k := by
  unfold dotToUnderscore
  rw [map_dotRepl_eq_self h]

theorem splitFirstColon_none {k : String} (h : (k.data.contains ':') = false) :
    splitFirstColon k = none := by
  unfold splitFirstColon
  rw [h]
  rfl

theorem keyNeedsChange_false_parts {k : String} (h : keyNeedsChange k = false) :
    (k.data.contains ':') = false ∧ (k.data.contains '.') = false := by
  simpa [keyNeedsChange, Bool.or_eq_false_iff] using h

theorem cleanNestedKey_eq_self {k : String} (h : keyNeedsChange k = false) :
    cleanNestedKey k = k := by
  obtain ⟨h1, h2⟩ := keyNeedsChange_false_parts h
  unfold cleanNestedKey
  rw [splitFirstColon_none h1]
  exact dotToUnderscore_eq_self h2

theorem setKey_of_not_mem {l : JObj} {k : String} (v : JVal)
    (h : (l.any fun kv => kv.1 == k) = false) :
    JVal.setKey l k v = l ++ [(k, v)] := by
  induction l with
  | nil => rfl
  | cons hd tl ih =>
      obtain ⟨k', v'⟩ := hd
      simp only [List.any_cons, Bool.or_eq_false_iff, beq_eq_false_iff_ne] at h
      simp [JVal.setKey, h.1, ih h.2]

theorem nodupKeysObj_append_not_mem {l1 : JObj} {k : String} {v : JVal} {l2 : JObj}
    (h : nodupKeysObj (l1 ++ (k, v) :: l2) = true) :
    (l1.any fun kv => kv.1 == k) = false := by
  induction l1 with
  | nil => rfl
  | cons hd tl ih =>
      obtain ⟨k', v'⟩ := hd
      simp only [List.cons_append, nodupKeysObj, Bool.and_eq_true, Bool.not_eq_true',
        List.append_eq] at h
      obtain ⟨⟨h1, _⟩, h3⟩ := h
      simp only [List.append_eq, List.any_append, List.any_cons, Bool.or_eq_false_iff] at h1
      simp only [List.any_cons, Bool.or_eq_false_iff]
      refine ⟨?_, ih h3⟩
      have := h1.2.1
      simp only [beq_eq_false_iff_ne] at this ⊢
      exact fun hh => this hh.symm

theorem noBadKeysObj_mem {entries : List (String × JVal)} (h : noBadKeysObj entries = true) :
    ∀ kv ∈ entries, keyNeedsChange kv.1 = false ∧ noBadKeys kv.2 = true := by
  induction entries with
  | nil => intro kv hkv; cases hkv
  | cons hd tl ih =>
      obtain ⟨k, v⟩ := hd
      simp only [noBadKeysObj, Bool.and_eq_true, Bool.not_eq_true'] at h
      intro kv hkv
      rcases List.mem_cons.mp hkv with h2 | h2
      · subst h2
        exact h.1
      · exact ih h.2 kv h2

theorem nodupKeysObj_mem {entries : List (String × JVal)} (h : nodupKeysObj entries = true) :
    ∀ kv ∈ entries, nodupKeysJ kv.2 = true := by
  induction entries with
  | nil => intro kv hkv; cases hkv
  | cons hd tl ih =>
      obtain ⟨k, v⟩ := hd
      simp only [nodupKeysObj, Bool.and_eq_true] at h
      intro kv hkv
      rcases List.mem_cons.mp hkv with h2 | h2
      · subst h2
        exact h.1.2
      · exact ih h.2 kv h2

theorem noBadKeysList_mem {items : List JVal} (h : noBadKeysList items = true) :
    ∀ j ∈ items, noBadKeys j = true := by
  induction items with
  | nil => intro j hj; cases hj
  | cons x xs ih =>
      simp only [noBadKeysList, Bool.and_eq_true] at h
      intro j hj
      rcases List.mem_cons.mp hj with h2 | h2
      · subst h2
        exact h.1
      · exact ih h.2 j h2

theorem nodupKeysList_mem {items : List JVal} (h : nodupKeysList items = true) :
    ∀ j ∈ items, nodupKeysJ j = true := by
  induction items with
  | nil => intro j hj; cases hj
  | cons x xs ih =>
      simp only [nodupKeysList, Bool.and_eq_true] at h
      intro j hj
      rcases List.mem_cons.mp hj with h2 | h2
      · subst h2
        exact h.1
      · exact ih h.2 j h2

theorem transformNestedObj_fix (entries : List (String × JVal)) :
    ∀ acc, nodupKeysObj (acc ++ entries) = true →
    (∀ kv ∈ entries, keyNeedsChange kv.1 = false) →
    (∀ kv ∈ entries, transformNested kv.2 = kv.2) →
    transformNestedObj entries acc = acc ++ entries := by
  induction entries with
  | nil =>
      intro acc _ _ _
      simp [transformNestedObj]
  | cons kv rest ih =>
      obtain ⟨k, v⟩ := kv
      intro acc hnd hclean hfix
      have hk : cleanNestedKey k = k := cleanNestedKey_eq_self (hclean (k, v) (by simp))
      have hv : transformNested v = v := hfix (k, v) (by simp)
      have hnotin : (acc.any fun kv2 => kv2.1 == k) = false :=
        nodupKeysObj_append_not_mem hnd
      have hnd2 : nodupKeysObj ((acc ++ [(k, v)]) ++ rest) = true := by
        rw [List.append_assoc]
        simpa using hnd
      simp only [transformNestedObj, hk, hv, setKey_of_not_mem v hnotin]
      rw [ih (acc ++ [(k, v)]) hnd2 (fun kv2 h2 => hclean kv2 (by simp [h2]))
        (fun kv2 h2 => hfix kv2 (by simp [h2]))]
      simp

theorem transformTopObj_fix (entries : List (String × JVal)) :
    ∀ acc, nodupKeysObj (acc ++ entries) = true →
    (∀ kv ∈ entries, keyNeedsChange kv.1 = false) →
    (∀ kv ∈ entries, transformNested kv.2 = kv.2) →
    transformTopObj entries acc = .ok (acc ++ entries) := by
  induction entries with
  | nil =>
      intro acc _ _ _
      simp [transformTopObj]
  | cons kv rest ih =>
      obtain ⟨k, v⟩ := kv
      intro acc hnd hclean hfix
      obtain ⟨hcolon, hdot⟩ := keyNeedsChange_false_parts (hclean (k, v) (by simp))
      have hv : transformNested v = v := hfix (k, v) (by simp)
      have hnotin : (acc.any fun kv2 => kv2.1 == k) = false :=
        nodupKeysObj_append_not_mem hnd
      have hnd2 : nodupKeysObj ((acc ++ [(k, v)]) ++ rest) = true := by
        rw [List.append_assoc]
        simpa using hnd
      simp only [transformTopObj, splitFirstColon_none hcolon, dotToUnderscore_eq_self hdot,
        hv, setKey_of_not_mem v hnotin]
      rw [ih (acc ++ [(k, v)]) hnd2 (fun kv2 h2 => hclean kv2 (by simp [h2]))
        (fun kv2 h2 => hfix kv2 (by simp [h2]))]
      simp

theorem transformNestedList_fix (items : List JVal)
    (hfix : ∀ j ∈ items, transformNested j = j) :
    transformNestedList items = items := by
  induction items with
  | nil => rfl
  | cons x xs ihx =>
      simp only [transformNestedList]
      rw [hfix x (List.mem_cons_self _ _),
        ihx (fun j hj => hfix j (List.mem_cons_of_mem _ hj))]

theorem transformTopList_fix (items : List JVal)
    (hfix : ∀ j ∈ items, transformTop j = .ok j) :
    transformTopList items = .ok items := by
  induction items with
  | nil => rfl
  | cons x xs ihx =>
      simp only [transformTopList, hfix x (List.mem_cons_self _ _),
        ihx (fun j hj => hfix j (List.mem_cons_of_mem _ hj))]

theorem transform_fix (j : JVal) :
    noBadKeys j = true → nodupKeysJ j = true →
    transformNested j = j ∧ transformTop j = .ok j := by
  induction j using JVal.inductionOn with
  | hnull => intro _ _; exact ⟨rfl, rfl⟩
  | hbool b => intro _ _; exact ⟨rfl, rfl⟩
  | hnum n => intro _ _; exact ⟨rfl, rfl⟩
  | hstr s => intro _ _; exact ⟨rfl, rfl⟩
  | harr items ih =>
      intro h1 h2
      simp only [noBadKeys] at h1
      simp only [nodupKeysJ] at h2
      have hfix : ∀ j ∈ items, transformNested j = j ∧ transformTop j = .ok j :=
        fun j hj => ih j hj (noBadKeysList_mem h1 j hj) (nodupKeysList_mem h2 j hj)
      constructor
      · simp only [transformNested]
        rw [transformNestedList_fix items (fun j hj => (hfix j hj).1)]
      · simp only [transformTop]
        rw [transformTopList_fix items (fun j hj => (hfix j hj).2)]
        rfl
  | hobj entries ih =>
      intro h1 h2
      simp only [noBadKeys] at h1
      simp only [nodupKeysJ] at h2
      have hclean : ∀ kv ∈ entries, keyNeedsChange kv.1 = false :=
        fun kv hkv => (noBadKeysObj_mem h1 kv hkv).1
      have hfix : ∀ kv ∈ entries, transformNested kv.2 = kv.2 :=
        fun kv hkv => (ih kv hkv (noBadKeysObj_mem h1 kv hkv).2 (nodupKeysObj_mem h2 kv hkv)).1
      have hnd : nodupKeysObj (([] : JObj) ++ entries) = true := by simpa using h2
      constructor
      · simp only [transformNested]
        rw [transformNestedObj_fix entries [] hnd hclean hfix]
        rfl
      · simp only [transformTop]
        rw [transformTopObj_fix entries [] hnd hclean hfix]
        rfl

/-- C8 counterexample: a key with two colons defeats idempotence — the
first pass leaves `b:c` in the bucket, the second pass strips it to `c`. -/
theorem transformKeys_c8_counterexample :
    transformKeys (.obj [(("a:b:c"), .num 1)]) =
      .ok (.obj [(("a"), .obj [(("b:c"), .num 1)])]) ∧
    transformKeys (.obj [(("a"), .obj [(("b:c"), .num 1)])]) =
      .ok (.obj [(("a"), .obj [(("c"), .num 1)])]) ∧
    (JVal.obj [(("a"), .obj [(("c"), .num 1)])]) ≠
      .obj [(("a"), .obj [(("b:c"), .num 1)])] := by
  decide

/-- C8 (amended): `_transform_keys` is idempotent on every record whose
one-pass output has no key containing `:` or `.` at any depth — then the
output is a fixpoint, so applying the transformation twice equals applying
it once.  (The unrestricted claim fails: see the counterexample.) -/
theorem transformKeys_c8_idempotent (x y : JVal)
    (h1 : transformKeys x = .ok y) (h2 : noBadKeys y = true) :
    transformKeys y = .ok y :=
  (transform_fix y h2 (transformTop_nodup x y h1)).2

/-- Witness for C8 (amended) at a concrete record. -/
theorem transformKeys_c8_witness :
    transformKeys (.obj [(("a:b.c"), .num 1), (("@id"), .str ("x"))]) =
      .ok (.obj [(("a"), .obj [(("b_c"), .num 1)]), (("@id"), .str ("x"))]) ∧
    transformKeys (.obj [(("a"), .obj [(("b_c"), .num 1)]), (("@id"), .str ("x"))]) =
      .ok (.obj [(("a"), .obj [(("b_c"), .num 1)]), (("@id"), .str ("x"))]) :=
  ⟨by decide,
   transformKeys_c8_idempotent (.obj [(("a:b.c"), .num 1), (("@id"), .str ("x"))])
     (.obj [(("a"), .obj [(("b_c"), .num 1)]), (("@id"), .str ("x"))])
     (by decide) (by decide)⟩
/-!  ## Claim C1: the asset key normalization -/

/-!  Chunk 1: string-level lemmas. -/

theorem contains_map_dot (l : List Char) :
    ((l.map (fun c => if c = '.' then '_' else c)).contains '.') = false := by
  induction l with
  | nil => rfl
  | cons c rest ih =>
      by_cases h : c = '.'
      · subst h
        simp only [List.map_cons, if_pos rfl, List.contains_cons, ih, Bool.or_false]
        decide
      · simp only [List.map_cons, if_neg h, List.contains_cons, ih, Bool.or_false]
        simp only [beq_eq_false_iff_ne]
        exact fun hh => h hh.symm

theorem contains_map_colon (l : List Char) :
    ((l.map (fun c => if c = '.' then '_' else c)).contains ':') = l.contains ':' := by
  induction l with
  | nil => rfl
  | cons c rest ih =>
      by_cases h : c = '.'
      · rw [List.map_cons, if_pos h, List.contains_cons, List.contains_cons, ih, h]
        have e1 : ((':') == ('_')) = false := by decide
        have e2 : ((':') == ('.')) = false := by decide
        rw [e1, e2]
      · rw [List.map_cons, if_neg h, List.contains_cons, List.contains_cons, ih]

theorem dotToUnderscore_noDot (k : String) :
    ((dotToUnderscore k).data.contains '.') = false := contains_map_dot _

theorem dotToUnderscore_colon (k : String) :
    ((dotToUnderscore k).data.contains ':') = (k.data.contains ':') := contains_map_colon _

theorem dropWhile_nil_of_not_contains {l : List Char} (h : l.contains ':' = false) :
    l.dropWhile (fun c => c ≠ ':') = [] := by
  induction l with
  | nil => rfl
  | cons c rest ih =>
      simp only [List.contains_cons, Bool.or_eq_false_iff, beq_eq_false_iff_ne] at h
      have hc : ¬(c = ':') := fun hh => h.1 hh.symm
      simp only [List.dropWhile_cons]
      rw [if_pos (by simpa using hc)]
      exact ih h.2

theorem atMostOneColon_of_not_contains {k : String} (h : k.data.contains ':' = false) :
    atMostOneColon k = true := by
  unfold atMostOneColon
  rw [dropWhile_nil_of_not_contains h]
  rfl

theorem keyNeedsChange_false_of {k : String} (h1 : k.data.contains ':' = false)
    (h2 : k.data.contains '.' = false) : keyNeedsChange k = false := by
  unfold keyNeedsChange
  rw [h1, h2]
  rfl

theorem not_true_of_false {b : Bool} (h : b = false) : ¬(b = true) := by simp [h]

theorem splitFirstColon_none_contains {k : String} (h : splitFirstColon k = none) :
    k.data.contains ':' = false := by
  by_cases hc : k.data.contains ':' = true
  · unfold splitFirstColon at h
    rw [if_pos hc] at h
    cases h
  · simpa using hc

theorem splitFirstColon_parts {k ns rest : String} (h : splitFirstColon k = some (ns, rest)) :
    ns.data = k.data.takeWhile (fun c => c ≠ ':') ∧
    rest.data = (k.data.dropWhile (fun c => c ≠ ':')).drop 1 ∧
    k.data.contains ':' = true := by
  unfold splitFirstColon at h
  by_cases hc : k.data.contains ':' = true
  · rw [if_pos hc] at h
    have h2 := Option.some.inj h
    refine ⟨?_, ?_, hc⟩
    · have h3 := congrArg Prod.fst h2
      simp only at h3
      rw [← h3]
    · have h3 := congrArg Prod.snd h2
      simp only at h3
      rw [← h3]
  · rw [if_neg hc] at h
    cases h

theorem takeWhile_ne_colon_contains (l : List Char) :
    ((l.takeWhile (fun c => c ≠ ':')).contains ':') = false := by
  induction l with
  | nil => rfl
  | cons c rest ih =>
      by_cases h : c = ':'
      · subst h
        simp only [List.takeWhile_cons]
        rw [if_neg (by simp)]
        rfl
      · simp only [List.takeWhile_cons]
        rw [if_pos (by simpa using h)]
        simp only [List.contains_cons, ih, Bool.or_false, beq_eq_false_iff_ne]
        exact fun hh => h hh.symm

theorem keyNeedsChange_cleanNestedKey {k : String} (h : atMostOneColon k = true) :
    keyNeedsChange (cleanNestedKey k) = false := by
  unfold cleanNestedKey
  rcases hs : splitFirstColon k with _ | ⟨ns, rest⟩
  · have hc := splitFirstColon_none_contains hs
    exact keyNeedsChange_false_of (by rw [dotToUnderscore_colon]; exact hc)
      (dotToUnderscore_noDot k)
  · obtain ⟨h1, h2, h3⟩ := splitFirstColon_parts hs
    refine keyNeedsChange_false_of ?_ (dotToUnderscore_noDot rest)
    rw [dotToUnderscore_colon, h2]
    unfold atMostOneColon at h
    simpa using h

theorem atMostOneColon_of_clean {k : String} (h : keyNeedsChange k = false) :
    atMostOneColon k = true :=
  atMostOneColon_of_not_contains (keyNeedsChange_false_parts h).1

theorem at_prefix_cons (c : Char) (cs : List Char) :
    ((("@") : String).data.isPrefixOf (c :: cs)) = ('@' == c) := by
  show (List.isPrefixOf ['@'] (c :: cs)) = ('@' == c)
  simp [List.isPrefixOf]

theorem ns_not_at {k ns rest : String} (h1 : (k = ("") || strStartsWith k ("@")) = false)
    (hs : splitFirstColon k = some (ns, rest)) : strStartsWith ns ("@") = false := by
  obtain ⟨hd, _, _⟩ := splitFirstColon_parts hs
  simp only [Bool.or_eq_false_iff] at h1
  obtain ⟨hke, hka⟩ := h1
  have hne : k.data ≠ [] := by
    intro hnil
    have : k = ("") := by
      cases k
      simp only at hnil
      rw [hnil]
    simp [this] at hke
  rcases hd2 : k.data with _ | ⟨c, cs⟩
  · exact absurd hd2 hne
  · have hca : ¬(c = '@') := by
      intro hc
      subst hc
      unfold strStartsWith at hka
      rw [hd2, at_prefix_cons] at hka
      simp at hka
    rw [hd2] at hd
    unfold strStartsWith
    by_cases hcc : c = ':'
    · subst hcc
      simp only [List.takeWhile_cons] at hd
      rw [if_neg (by simp)] at hd
      rw [hd]
      rfl
    · simp only [List.takeWhile_cons] at hd
      rw [if_pos (by simpa using hcc)] at hd
      rw [hd, at_prefix_cons]
      simp only [beq_eq_false_iff_ne]
      exact fun hh => hca hh.symm

theorem dot_not_at {k : String} (h1 : (k = ("") || strStartsWith k ("@")) = false) :
    strStartsWith (dotToUnderscore k) ("@") = false := by
  simp only [Bool.or_eq_false_iff] at h1
  obtain ⟨hke, hka⟩ := h1
  have hne : k.data ≠ [] := by
    intro hnil
    have : k = ("") := by
      cases k
      simp only at hnil
      rw [hnil]
    simp [this] at hke
  rcases hd2 : k.data with _ | ⟨c, cs⟩
  · exact absurd hd2 hne
  · have hca : ¬(c = '@') := by
      intro hc
      subst hc
      unfold strStartsWith at hka
      rw [hd2, at_prefix_cons] at hka
      simp at hka
    unfold strStartsWith dotToUnderscore
    dsimp only
    rw [hd2, List.map_cons]
    by_cases hcd : c = '.'
    · rw [if_pos hcd, at_prefix_cons]
      decide
    · rw [if_neg hcd, at_prefix_cons]
      simp only [beq_eq_false_iff_ne]
      exact fun hh => hca hh.symm

/-!  Chunk 2: predicate plumbing. -/

theorem keysOneColonList_mem {items : List JVal} (h : keysOneColonList items = true) :
    ∀ j ∈ items, keysOneColon j = true := by
  induction items with
  | nil => intro j hj; cases hj
  | cons x xs ih =>
      simp only [keysOneColonList, Bool.and_eq_true] at h
      intro j hj
      rcases List.mem_cons.mp hj with h2 | h2
      · subst h2
        exact h.1
      · exact ih h.2 j h2

theorem keysOneColonObj_mem {entries : List (String × JVal)}
    (h : keysOneColonObj entries = true) :
    ∀ kv ∈ entries, atMostOneColon kv.1 = true ∧ keysOneColon kv.2 = true := by
  induction entries with
  | nil => intro kv hkv; cases hkv
  | cons hd tl ih =>
      obtain ⟨k, v⟩ := hd
      simp only [keysOneColonObj, Bool.and_eq_true] at h
      intro kv hkv
      rcases List.mem_cons.mp hkv with h2 | h2
      · subst h2
        exact h.1
      · exact ih h.2 kv h2

theorem keysOneColonList_of (items : List JVal)
    (h : ∀ j ∈ items, keysOneColon j = true) : keysOneColonList items = true := by
  induction items with
  | nil => rfl
  | cons x xs ih =>
      simp only [keysOneColonList, Bool.and_eq_true]
      exact ⟨h x (List.mem_cons_self _ _), ih (fun j hj => h j (List.mem_cons_of_mem _ hj))⟩

theorem keysOneColonObj_of (entries : List (String × JVal))
    (h : ∀ kv ∈ entries, atMostOneColon kv.1 = true ∧ keysOneColon kv.2 = true) :
    keysOneColonObj entries = true := by
  induction entries with
  | nil => rfl
  | cons kv rest ih =>
      obtain ⟨k, v⟩ := kv
      simp only [keysOneColonObj, Bool.and_eq_true]
      exact ⟨h (k, v) (List.mem_cons_self _ _),
        ih (fun kv2 h2 => h kv2 (List.mem_cons_of_mem _ h2))⟩

theorem noBadKeysList_of (items : List JVal)
    (h : ∀ j ∈ items, noBadKeys j = true) : noBadKeysList items = true := by
  induction items with
  | nil => rfl
  | cons x xs ih =>
      simp only [noBadKeysList, Bool.and_eq_true]
      exact ⟨h x (List.mem_cons_self _ _), ih (fun j hj => h j (List.mem_cons_of_mem _ hj))⟩

theorem noBad_oneColon : ∀ j, noBadKeys j = true → keysOneColon j = true := by
  intro j
  induction j using JVal.inductionOn with
  | hnull => intro _; rfl
  | hbool b => intro _; rfl
  | hnum n => intro _; rfl
  | hstr s => intro _; rfl
  | harr items ih =>
      intro h
      simp only [noBadKeys] at h
      simp only [keysOneColon]
      exact keysOneColonList_of items (fun j hj => ih j hj (noBadKeysList_mem h j hj))
  | hobj entries ih =>
      intro h
      simp only [noBadKeys] at h
      simp only [keysOneColon]
      refine keysOneColonObj_of entries (fun kv hkv => ?_)
      obtain ⟨hk, hv⟩ := noBadKeysObj_mem h kv hkv
      exact ⟨atMostOneColon_of_clean hk, ih kv hkv hv⟩

theorem keysOneColonObj_eq_all (l : List (String × JVal)) :
    keysOneColonObj l = l.all fun kv => atMostOneColon kv.1 && keysOneColon kv.2 := by
  induction l with
  | nil => rfl
  | cons kv rest ih =>
      obtain ⟨k, v⟩ := kv
      simp only [keysOneColonObj, List.all_cons, ih]

theorem noBadKeysObj_eq_all (l : List (String × JVal)) :
    noBadKeysObj l = l.all fun kv => !(keyNeedsChange kv.1) && noBadKeys kv.2 := by
  induction l with
  | nil => rfl
  | cons kv rest ih =>
      obtain ⟨k, v⟩ := kv
      simp only [noBadKeysObj, List.all_cons, ih]

theorem all_setKey {p : String × JVal → Bool} {l : JObj} {k : String} {v : JVal}
    (hl : l.all p = true) (hkv : p (k, v) = true) :
    (JVal.setKey l k v).all p = true := by
  induction l with
  | nil => simp [JVal.setKey, hkv]
  | cons hd tl ih =>
      obtain ⟨k', v'⟩ := hd
      simp only [List.all_cons, Bool.and_eq_true] at hl
      by_cases h : k' = k
      · simp only [JVal.setKey, if_pos h, List.all_cons, Bool.and_eq_true]
        exact ⟨hkv, hl.2⟩
      · simp only [JVal.setKey, if_neg h, List.all_cons, Bool.and_eq_true]
        exact ⟨hl.1, ih hl.2⟩

theorem all_getKey {p : String × JVal → Bool} {l : JObj} {k : String} {v : JVal}
    (hl : l.all p = true) (hget : JVal.getKey l k = some v) : p (k, v) = true := by
  induction l with
  | nil => simp [JVal.getKey] at hget
  | cons hd tl ih =>
      obtain ⟨k', v'⟩ := hd
      simp only [List.all_cons, Bool.and_eq_true] at hl
      simp only [JVal.getKey] at hget
      by_cases h : k' = k
      · rw [if_pos h] at hget
        cases hget
        subst h
        exact hl.1
      · rw [if_neg h] at hget
        exact ih hl.2 hget

theorem noBadKeys_of_nonContainer {v : JVal} (h : v.isContainer = false) :
    noBadKeys v = true := by
  cases v <;> first | rfl | (simp [JVal.isContainer] at h)

theorem normalizeNested_nonContainer {v : JVal} (h : v.isContainer = false) :
    normalizeNested v = v := by
  cases v <;> first | rfl | (simp [JVal.isContainer] at h)

/-!  Chunk 3: the nested pass yields clean keys. -/

theorem normalizeNestedList_noBad (items : List JVal)
    (h : ∀ j ∈ items, noBadKeys (normalizeNested j) = true) :
    noBadKeysList (normalizeNestedList items) = true := by
  induction items with
  | nil => rfl
  | cons x xs ih =>
      simp only [normalizeNestedList, noBadKeysList, Bool.and_eq_true]
      exact ⟨h x (List.mem_cons_self _ _), ih (fun j hj => h j (List.mem_cons_of_mem _ hj))⟩

theorem normalizeNestedObj_clean (entries : List (String × JVal)) :
    ∀ out, noBadKeysObj out = true →
    (∀ kv ∈ entries, atMostOneColon kv.1 = true ∧ noBadKeys (normalizeNested kv.2) = true) →
    noBadKeysObj (normalizeNestedObj entries out) = true := by
  induction entries with
  | nil =>
      intro out h _
      simpa [normalizeNestedObj] using h
  | cons kv rest ih =>
      obtain ⟨k, v⟩ := kv
      intro out hout hmem
      simp only [normalizeNestedObj]
      refine ih _ ?_ (fun kv2 h2 => hmem kv2 (List.mem_cons_of_mem _ h2))
      rw [noBadKeysObj_eq_all] at hout ⊢
      refine all_setKey hout ?_
      simp only [Bool.and_eq_true, Bool.not_eq_true']
      exact ⟨keyNeedsChange_cleanNestedKey (hmem (k, v) (List.mem_cons_self _ _)).1,
        (hmem (k, v) (List.mem_cons_self _ _)).2⟩

theorem normalizeNested_clean : ∀ j, keysOneColon j = true →
    noBadKeys (normalizeNested j) = true := by
  intro j
  induction j using JVal.inductionOn with
  | hnull => intro _; rfl
  | hbool b => intro _; rfl
  | hnum n => intro _; rfl
  | hstr s => intro _; rfl
  | harr items ih =>
      intro h
      simp only [keysOneColon] at h
      have hm := keysOneColonList_mem h
      simp only [normalizeNested]
      by_cases hc : (items.any JVal.isContainer) = true
      · rw [if_pos hc]
        simp only [noBadKeys]
        exact normalizeNestedList_noBad items (fun j hj => ih j hj (hm j hj))
      · rw [if_neg hc]
        simp only [noBadKeys]
        refine noBadKeysList_of items (fun j hj => ?_)
        refine noBadKeys_of_nonContainer ?_
        by_contra hcj
        exact hc (List.any_eq_true.mpr ⟨j, hj, by simpa using hcj⟩)
  | hobj entries ih =>
      intro h
      simp only [keysOneColon] at h
      have hm := keysOneColonObj_mem h
      simp only [normalizeNested]
      by_cases hfast :
          ((!(entries.any fun kv => keyNeedsChange kv.1)) &&
            (!(entries.any fun kv => kv.2.isContainer))) = true
      · rw [if_pos hfast]
        simp only [Bool.and_eq_true, Bool.not_eq_true'] at hfast
        obtain ⟨hk, hv⟩ := hfast
        simp only [noBadKeys]
        rw [noBadKeysObj_eq_all]
        refine List.all_eq_true.mpr (fun kv hkv => ?_)
        simp only [Bool.and_eq_true, Bool.not_eq_true']
        constructor
        · by_contra hb
          have : entries.any (fun kv => keyNeedsChange kv.1) = true :=
            List.any_eq_true.mpr ⟨kv, hkv, by simpa using hb⟩
          rw [this] at hk
          cases hk
        · refine noBadKeys_of_nonContainer ?_
          by_contra hb
          have : entries.any (fun kv => kv.2.isContainer) = true :=
            List.any_eq_true.mpr ⟨kv, hkv, by simpa using hb⟩
          rw [this] at hv
          cases hv
      · rw [if_neg hfast]
        simp only [noBadKeys]
        exact normalizeNestedObj_clean entries [] rfl
          (fun kv hkv => ⟨(hm kv hkv).1, ih kv hkv (hm kv hkv).2⟩)

/-!  Chunk 4: the bucketing fold. -/

theorem normalizeAssetTopGo_append (l1 l2 : List (String × JVal)) :
    ∀ out, normalizeAssetTopGo (l1 ++ l2) out =
      normalizeAssetTopGo l2 (normalizeAssetTopGo l1 out) := by
  induction l1 with
  | nil => intro out; rfl
  | cons kv rest ih =>
      obtain ⟨k, v⟩ := kv
      intro out
      simp only [List.cons_append, normalizeAssetTopGo]
      by_cases h1 : (k = ("") || strStartsWith k ("@")) = true
      · rw [if_pos h1, if_pos h1]
        exact ih _
      · rw [if_neg h1, if_neg h1]
        rcases hs : splitFirstColon k with _ | ⟨ns, field⟩ <;> dsimp only <;> exact ih _

theorem getKey_normalizeAssetTopGo (entries : List (String × JVal)) (key : String) :
    ∀ out, (∀ kv ∈ entries, targetTopKey kv.1 ≠ key) →
    JVal.getKey (normalizeAssetTopGo entries out) key = JVal.getKey out key := by
  induction entries with
  | nil => intro out _; rfl
  | cons kv rest ih =>
      obtain ⟨k, v⟩ := kv
      intro out hmem
      have htk : targetTopKey k ≠ key := hmem (k, v) (List.mem_cons_self _ _)
      have hrest := fun kv2 h2 => hmem kv2 (List.mem_cons_of_mem _ h2)
      simp only [normalizeAssetTopGo]
      by_cases h1 : (k = ("") || strStartsWith k ("@")) = true
      · rw [if_pos h1]
        rw [ih _ hrest]
        apply JVal.getKey_setKey_ne
        unfold targetTopKey at htk
        rw [if_pos h1] at htk
        exact htk
      · rw [if_neg h1]
        unfold targetTopKey at htk
        rw [if_neg h1] at htk
        rcases hs : splitFirstColon k with _ | ⟨ns, field⟩ <;> rw [hs] at htk <;> dsimp only <;>
          rw [ih _ hrest] <;> exact JVal.getKey_setKey_ne _ _ _ _ htk

theorem topOutOk_normalizeAssetTopGo (entries : List (String × JVal)) :
    ∀ out, out.all topEntryOk = true →
    (∀ kv ∈ entries,
      (if kv.1 = ("") || strStartsWith kv.1 ("@") then noBadKeys kv.2
       else goodTopKey kv.1 && keysOneColon kv.2) = true) →
    (normalizeAssetTopGo entries out).all topEntryOk = true := by
  induction entries with
  | nil => intro out h _; simpa [normalizeAssetTopGo] using h
  | cons kv rest ih =>
      obtain ⟨k, v⟩ := kv
      intro out hout hmem
      have hhead := hmem (k, v) (List.mem_cons_self _ _)
      have hrest := fun kv2 h2 => hmem kv2 (List.mem_cons_of_mem _ h2)
      simp only [normalizeAssetTopGo]
      by_cases h1 : (k = ("") || strStartsWith k ("@")) = true
      · rw [if_pos h1]
        rw [if_pos h1] at hhead
        refine ih _ (all_setKey hout ?_) hrest
        unfold topEntryOk
        by_cases ha : strStartsWith k ("@") = true
        · rw [if_pos ha]
          exact hhead
        · rw [if_neg ha]
          have hk0 : k = ("") := by
            rcases Bool.or_eq_true_iff.mp h1 with h2 | h2
            · exact of_decide_eq_true h2
            · exact absurd h2 (by simp [ha])
          subst hk0
          simp only [Bool.and_eq_true, Bool.not_eq_true']
          exact ⟨by decide, noBad_oneColon v hhead⟩
      · have h1f : (k = ("") || strStartsWith k ("@")) = false :=
          Bool.eq_false_iff.mpr h1
        rw [if_neg h1]
        rw [if_neg h1] at hhead
        simp only [Bool.and_eq_true] at hhead
        obtain ⟨hgood, honec⟩ := hhead
        rcases hs : splitFirstColon k with _ | ⟨ns, field⟩
        · dsimp only
          refine ih _ (all_setKey hout ?_) hrest
          unfold topEntryOk
          rw [if_neg (not_true_of_false (dot_not_at h1f))]
          simp only [Bool.and_eq_true, Bool.not_eq_true']
          refine ⟨keyNeedsChange_false_of ?_ (dotToUnderscore_noDot k), honec⟩
          rw [dotToUnderscore_colon]
          exact splitFirstColon_none_contains hs
        · dsimp only
          unfold goodTopKey at hgood
          rw [hs] at hgood
          simp only [Bool.and_eq_true, Bool.not_eq_true'] at hgood
          obtain ⟨hnsdot, hfieldcolon⟩ := hgood
          obtain ⟨hnsdata, _, _⟩ := splitFirstColon_parts hs
          have hnsclean : keyNeedsChange ns = false := by
            refine keyNeedsChange_false_of ?_ hnsdot
            rw [hnsdata]
            exact takeWhile_ne_colon_contains _
          have hnsat : strStartsWith ns ("@") = false := ns_not_at h1f hs
          have hnewkey : atMostOneColon (dotToUnderscore field) = true := by
            refine atMostOneColon_of_not_contains ?_
            rw [dotToUnderscore_colon]
            exact hfieldcolon
          have hbucket : ∀ b : JObj, keysOneColonObj b = true →
              topEntryOk (ns, .obj (JVal.setKey b (dotToUnderscore field) v)) = true := by
            intro b hb
            unfold topEntryOk
            rw [if_neg (not_true_of_false hnsat)]
            simp only [Bool.and_eq_true, Bool.not_eq_true']
            refine ⟨hnsclean, ?_⟩
            simp only [keysOneColon]
            rw [keysOneColonObj_eq_all] at hb ⊢
            refine all_setKey hb ?_
            simp only [Bool.and_eq_true]
            exact ⟨hnewkey, honec⟩
          rcases hget : JVal.getKey out ns with _ | w
          · dsimp only
            exact ih _ (all_setKey hout (hbucket [] rfl)) hrest
          · cases w with
            | obj b =>
                dsimp only
                refine ih _ (all_setKey hout (hbucket b ?_)) hrest
                have hp := all_getKey hout hget
                unfold topEntryOk at hp
                rw [if_neg (not_true_of_false hnsat)] at hp
                simp only [Bool.and_eq_true] at hp
                have := hp.2
                simpa [keysOneColon] using this
            | null => dsimp only; exact ih _ (all_setKey hout (hbucket [] rfl)) hrest
            | bool b2 => dsimp only; exact ih _ (all_setKey hout (hbucket [] rfl)) hrest
            | num n2 => dsimp only; exact ih _ (all_setKey hout (hbucket [] rfl)) hrest
            | str s2 => dsimp only; exact ih _ (all_setKey hout (hbucket [] rfl)) hrest
            | arr a2 => dsimp only; exact ih _ (all_setKey hout (hbucket [] rfl)) hrest

/-!  Chunk 5: the post-normalization map. -/

theorem assetPost_fst (kv : String × JVal) : (assetPost kv).1 = kv.1 := by
  unfold assetPost
  by_cases h1 : strStartsWith kv.1 ("@") = true
  · rw [if_pos h1]
  · rw [if_neg h1]
    by_cases h2 : kv.2.isContainer = true
    · rw [if_pos h2]
    · rw [if_neg h2]

theorem getKey_map_assetPost (l : JObj) (key : String) :
    JVal.getKey (l.map assetPost) key =
      (JVal.getKey l key).map (fun v => (assetPost (key, v)).2) := by
  induction l with
  | nil => rfl
  | cons kv rest ih =>
      obtain ⟨k, v⟩ := kv
      have hsplit : assetPost (k, v) = (k, (assetPost (k, v)).2) := by
        have h1 := assetPost_fst (k, v)
        rcases hap : assetPost (k, v) with ⟨a, b⟩
        rw [hap] at h1
        simp only at h1
        rw [h1]
      simp only [List.map_cons]
      rw [hsplit]
      simp only [JVal.getKey]
      by_cases h : k = key
      · rw [if_pos h, if_pos h]
        subst h
        rfl
      · rw [if_neg h, if_neg h]
        exact ih

theorem assetKeysClean_of_topOutOk (out : JObj) (h : out.all topEntryOk = true) :
    assetKeysClean (out.map assetPost) = true := by
  unfold assetKeysClean
  induction out with
  | nil => rfl
  | cons kv rest ih =>
      obtain ⟨k, v⟩ := kv
      simp only [List.all_cons, Bool.and_eq_true] at h
      simp only [List.map_cons, List.all_cons, Bool.and_eq_true]
      refine ⟨?_, ih h.2⟩
      have h1 := h.1
      unfold topEntryOk at h1
      unfold assetPost
      by_cases ha : strStartsWith k ("@") = true
      · rw [if_pos ha] at h1
        simp only [if_pos ha]
        exact h1
      · rw [if_neg ha] at h1
        simp only [Bool.and_eq_true, Bool.not_eq_true'] at h1
        obtain ⟨hkc, hoc⟩ := h1
        simp only [if_neg ha]
        by_cases hc : v.isContainer = true
        · rw [if_pos hc]
          simp only [if_neg ha, Bool.and_eq_true, Bool.not_eq_true']
          exact ⟨hkc, normalizeNested_clean v hoc⟩
        · rw [if_neg hc]
          simp only [if_neg ha, Bool.and_eq_true, Bool.not_eq_true']
          exact ⟨hkc, noBadKeys_of_nonContainer (by simpa using hc)⟩

theorem normalizeNested_singleton (k2 : String) (v2 : JVal) :
    normalizeNested (.obj [(k2, v2)]) =
      .obj [(cleanNestedKey k2, normalizeNested v2)] := by
  simp only [normalizeNested]
  by_cases h :
      ((!(([(k2, v2)] : List (String × JVal)).any fun kv => keyNeedsChange kv.1)) &&
        (!(([(k2, v2)] : List (String × JVal)).any fun kv => kv.2.isContainer))) = true
  · rw [if_pos h]
    simp only [List.any_cons, List.any_nil, Bool.or_false, Bool.and_eq_true,
      Bool.not_eq_true'] at h
    obtain ⟨hk, hv⟩ := h
    rw [cleanNestedKey_eq_self hk, normalizeNested_nonContainer hv]
  · rw [if_neg h]
    rfl

/-!  Chunk 6: the claim. -/

/-- C1 (amended). -/
theorem asset_key_normalization_c1 :
    (∀ pre post k v, strStartsWith k ("@") = true →
        (∀ kv ∈ post, targetTopKey kv.1 ≠ k) →
        JVal.getKey (normalizeAssetKeys (pre ++ (k, v) :: post)) k = some v) ∧
    (∀ pre post k v ns rest,
        splitFirstColon k = some (ns, rest) →
        (k = ("") || strStartsWith k ("@")) = false →
        (rest.data.contains ':') = false →
        (∀ kv ∈ pre, targetTopKey kv.1 ≠ ns) →
        (∀ kv ∈ post, targetTopKey kv.1 ≠ ns) →
        JVal.getKey (normalizeAssetKeys (pre ++ (k, v) :: post)) ns =
          some (.obj [(dotToUnderscore rest, normalizeNested v)])) ∧
    (∀ k2 v2, normalizeNested (.obj [(k2, v2)]) =
        .obj [(cleanNestedKey k2, normalizeNested v2)]) ∧
    (∀ entries, goodAssetInput entries = true →
        assetKeysClean (normalizeAssetKeys entries) = true) := by
  refine ⟨?_, ?_, normalizeNested_singleton, ?_⟩
  · intro pre post k v hat hpost
    unfold normalizeAssetKeys normalizeAssetTopLevelKeys
    rw [getKey_map_assetPost]
    rw [normalizeAssetTopGo_append pre ((k, v) :: post) []]
    simp only [normalizeAssetTopGo]
    rw [if_pos (by simp [hat])]
    rw [getKey_normalizeAssetTopGo post k _ hpost]
    rw [JVal.getKey_setKey_self]
    simp only [Option.map_some']
    unfold assetPost
    rw [if_pos hat]
  · intro pre post k v ns rest hs h1 hrest hpre hpost
    unfold normalizeAssetKeys normalizeAssetTopLevelKeys
    rw [getKey_map_assetPost]
    rw [normalizeAssetTopGo_append pre ((k, v) :: post) []]
    simp only [normalizeAssetTopGo]
    rw [if_neg (by simp [h1])]
    rw [hs]
    dsimp only
    rw [getKey_normalizeAssetTopGo pre ns [] hpre]
    dsimp only [JVal.getKey]
    rw [getKey_normalizeAssetTopGo post ns _ hpost]
    rw [JVal.getKey_setKey_self]
    simp only [Option.map_some']
    unfold assetPost
    rw [if_neg (by rw [ns_not_at h1 hs]; simp)]
    simp only [JVal.isContainer, if_true, JVal.setKey]
    have hdf : keyNeedsChange (dotToUnderscore rest) = false := by
      refine keyNeedsChange_false_of ?_ (dotToUnderscore_noDot rest)
      rw [dotToUnderscore_colon]
      exact hrest
    rw [normalizeNested_singleton, cleanNestedKey_eq_self hdf]
  · intro entries hgood
    unfold normalizeAssetKeys normalizeAssetTopLevelKeys
    refine assetKeysClean_of_topOutOk _ ?_
    refine topOutOk_normalizeAssetTopGo entries [] rfl ?_
    unfold goodAssetInput at hgood
    exact fun kv hkv => List.all_eq_true.mp hgood kv hkv

/-- C1 counterexample. -/
theorem asset_key_normalization_c1_counterexample :
    normalizeAssetKeys [(("a.b:c"), .num 1)] = [(("a.b"), .obj [(("c"), .num 1)])] ∧
    assetKeysClean (normalizeAssetKeys [(("a.b:c"), .num 1)]) = false := by
  decide

/-- Witness for C1 (amended). -/
theorem asset_key_normalization_c1_witness :
    JVal.getKey (normalizeAssetKeys [(("@id"), .str ("u")), (("ns:a.b"), .num 2)]) ("@id") =
      some (.str ("u")) ∧
    JVal.getKey (normalizeAssetKeys [(("@id"), .str ("u")), (("ns:a.b"), .num 2)]) ("ns") =
      some (.obj [(("a_b"), .num 2)]) ∧
    normalizeNested (.obj [(("x:y.z"), .bool true)]) = .obj [(("y_z"), .bool true)] ∧
    assetKeysClean (normalizeAssetKeys [(("@id"), .str ("u")), (("ns:a.b"), .num 2)]) = true := by
  refine ⟨?_, ?_, ?_, ?_⟩
  · exact (asset_key_normalization_c1).1 [] [(("ns:a.b"), .num 2)] ("@id") (.str ("u"))
      (by decide) (by decide)
  · exact ((asset_key_normalization_c1).2.1 [(("@id"), .str ("u"))] [] ("ns:a.b") (.num 2)
      ("ns") ("a.b") (by decide) (by decide) (by decide) (by decide) (by decide)).trans
      (by decide)
  · exact ((asset_key_normalization_c1).2.2.1 ("x:y.z") (.bool true)).trans (by decide)
  · exact (asset_key_normalization_c1).2.2.2
      [(("@id"), .str ("u")), (("ns:a.b"), .num 2)] (by decide)

/-!  ## Claim C9: totality and shape of the fast point path; shapely fallback -/

/-- C9: `_fast_point_wgs84_from_wkt3812` never raises — every Python
exception path is an explicit `None`, so the embedding is a total function —
and for every input string it returns either `None` or a GeoJSON dict
`{"type": "Point", "coordinates": [lon, lat]}` with exactly two coordinates;
whenever it returns `None` for an asset that has a (truthy string) WKT,
`_enrich_geometry` falls back to the full shapely parse, whose resulting
Point with three or more coordinates is truncated to two. -/
theorem fast_point_c9 (numPipe : String → String → Option (JVal × JVal))
    (shapely : String → Except String JVal) (s w2 : String) (o : JObj) (g gj : JVal)
    (ges : JObj) (cs : List JVal) :
    (fastPoint numPipe s = none ∨
      ∃ lon lat, fastPoint numPipe s =
        some (.obj [(("type"), .str ("Point")), (("coordinates"), .arr [lon, lat])])) ∧
    (extractWkt o = .ok (some (.str s)) → s ≠ "" → fastPoint numPipe s = none →
      stripSridForShapely s = .ok w2 → shapely w2 = .ok g → truncPointGeo g = .ok gj →
      enrichGeometry numPipe shapely o =
        .ok (JVal.setKey (JVal.setKey o ("wkt") (.str s)) ("geometry") gj)) ∧
    (JVal.getKey ges ("type") = some (.str ("Point")) →
      JVal.getKey ges ("coordinates") = some (.arr cs) → cs.length ≥ 3 →
      truncPointGeo (.obj ges) =
        .ok (.obj (JVal.setKey ges ("coordinates") (.arr (cs.take 2))))) := by
  refine ⟨?_, ?_, ?_⟩
  · unfold fastPoint
    dsimp only
    (repeat' split) <;>
      first
        | exact Or.inl rfl
        | exact Or.inr ⟨_, _, rfl⟩
  · intro hext hs hfp hstrip hshape htrunc
    unfold enrichGeometry
    rw [hext]
    have ht : (JVal.str s).truthy = true := by simp [JVal.truthy, hs]
    simp [ht, hfp, hstrip, hshape, htrunc]
  · intro h1 h2 h3
    unfold truncPointGeo
    simp [h1, h2, pyLen, h3]

/-- Witness for C9: the fast path rejects `MULTI X`, the shapely fallback
runs, and its 3D point is truncated to 2D. -/
theorem fast_point_c9_witness :
    enrichGeometry (fun _ _ => none) (fun _ => .ok c9Point3) c9Obj =
      .ok (JVal.setKey (JVal.setKey c9Obj ("wkt") (.str ("MULTI X"))) ("geometry") c9Point2) ∧
    truncPointGeo c9Point3 = .ok c9Point2 :=
  ⟨(fast_point_c9 (fun _ _ => none) (fun _ => .ok c9Point3) ("MULTI X") ("MULTI X") c9Obj
      c9Point3 c9Point2
      [(("type"), .str ("Point")), (("coordinates"), .arr [.num 7, .num 8, .num 9])]
      [.num 7, .num 8, .num 9]).2.1
      (by decide) (by decide) (by decide) (by decide) (by decide) (by decide),
   (fast_point_c9 (fun _ _ => none) (fun _ => .ok c9Point3) ("MULTI X") ("MULTI X") c9Obj
      c9Point3 c9Point2
      [(("type"), .str ("Point")), (("coordinates"), .arr [.num 7, .num 8, .num 9])]
      [.num 7, .num 8, .num 9]).2.2
      (by decide) (by decide) (by decide)⟩

/-!  ## Claim C10: unknown `@type` records are skipped without enrichment -/

/-- C10: in the assets handler, a record whose `@type` does not resolve in
the asset-type lookup is skipped right after its `_key` is computed and
before any enrichment: its loop-body outcome is `.skip` (not an error and
not a kept document — so no geometry, toestand/naampad or toezicht
derivation and no bestekkoppeling emission ran, and no uuid was consumed),
and the page result equals that of the page without the record, with the
skipped counter incremented once. -/
theorem assets_unknown_type_c10 (A B : String → Option String) (U : Nat → String)
    (N : String → String → Option (JVal × JVal)) (S : String → Except String JVal)
    (rawEntries : List (String × JVal)) (idv : String)
    (hid : (JVal.getKey (normalizeAssetKeys rawEntries) ("@id")).getD (.str ("")) = .str idv)
    (hty : assettypeLookupGet A (JVal.getKey (normalizeAssetKeys rawEntries) ("@type")) =
      .ok none) :
    (∀ ctr, processOneAsset A B U N S (.obj rawEntries) ctr = .skip) ∧
    (∀ pre post ctr, insertAssetsGo A B U N S (pre ++ .obj rawEntries :: post) ctr =
      match insertAssetsGo A B U N S (pre ++ post) ctr with
      | .error e => .error e
      | .ok (docs, kopps, unk) => .ok (docs, kopps, unk + 1)) := by
  have hskip : ∀ ctr, processOneAsset A B U N S (.obj rawEntries) ctr = .skip := by
    intro ctr
    unfold processOneAsset
    dsimp only
    rw [hid]
    dsimp only
    rw [hty]
  refine ⟨hskip, ?_⟩
  intro pre post ctr
  induction pre generalizing ctr with
  | nil =>
      simp only [List.nil_append, insertAssetsGo, hskip ctr]
  | cons p ps ih =>
      rcases hp : processOneAsset A B U N S p ctr with e | _ | ⟨doc, kopps1, ctr2⟩
      · simp only [List.cons_append, insertAssetsGo, hp]
      · simp only [List.cons_append, insertAssetsGo, hp, List.append_eq]
        rw [ih ctr]
      · simp only [List.cons_append, insertAssetsGo, hp, List.append_eq]
        rw [ih ctr2]
        rcases insertAssetsGo A B U N S (ps ++ post) ctr2 with e | ⟨d, k, u⟩ <;> rfl

/-- Witness for C10: with an empty asset-type lookup the record is skipped
and a one-record page yields no documents, no edges and one skipped. -/
theorem assets_unknown_type_c10_witness :
    processOneAsset (fun _ => none) (fun _ => none) (fun _ => ("")) (fun _ _ => none)
      (fun _ => .error ("")) (.obj c10Raw) 0 = .skip ∧
    insertAssetsGo (fun _ => none) (fun _ => none) (fun _ => ("")) (fun _ _ => none)
      (fun _ => .error ("")) [.obj c10Raw] 0 = .ok ([], [], 1) := by
  obtain ⟨h1, h2⟩ := assets_unknown_type_c10 (fun _ => none) (fun _ => none) (fun _ => (""))
    (fun _ _ => none) (fun _ => .error ("")) c10Raw ("https://x/id/asset/UNKNOWN-01")
    (by decide) (by decide)
  refine ⟨h1 0, ?_⟩
  have h3 := h2 [] [] 0
  simp only [List.nil_append] at h3
  rw [h3]
  rfl

/-!  ## Claim C3: the asset-relations handler (spec-modelled) -/

/-- A record mapped to no document is dropped from the bulk-import batch and
the rest of the page is processed unchanged. -/
theorem insertAssetRelations_skip (relatietypes : String → Option String) (r : JVal)
    (hskip : relationDoc relatietypes r = .ok none) (pre post : List JVal) :
    insertAssetRelations relatietypes (pre ++ r :: post) =
      insertAssetRelations relatietypes (pre ++ post) := by
  induction pre with
  | nil => simp [insertAssetRelations, hskip]
  | cons p ps ih =>
      simp only [List.cons_append, insertAssetRelations, List.append_eq]
      rw [ih]

/-- C3 (spec-modelled: `_insert_asset_relations` is called at
src/InitialFillStep.py line 424 but defined nowhere in the source tree;
`relationDoc`/`insertAssetRelations` follow §4.5 of the spec): for each
record, keys are normalized, `_key` is the last path segment of `@id`
truncated to 36 characters, `_from`/`_to` are `assets/` plus the first 36
characters of the bron/doel `@id` tails, `AIMDBStatus_isActief` defaults to
`true` exactly when absent, `relatietype_key` is resolved through the
relation-type lookup by uri, and a record with an unknown relation-type is
skipped while the rest of the page is still imported. -/
theorem asset_relations_c3 (relatietypes : String → Option String) (r : JVal)
    (o bron doel : JObj) (idv bidv didv uri : String)
    (h1 : transformKeys r = .ok (.obj o))
    (h2 : JVal.getKey o ("@id") = some (.str idv))
    (h3 : JVal.getKey o ("RelatieObject_bron") = some (.obj bron))
    (h4 : JVal.getKey o ("RelatieObject_doel") = some (.obj doel))
    (h5 : JVal.getKey bron ("@id") = some (.str bidv))
    (h6 : JVal.getKey doel ("@id") = some (.str didv))
    (h7 : JVal.getKey o ("@type") = some (.str uri)) :
    (∀ rk, relatietypes uri = some rk →
      ∃ d, relationDoc relatietypes r = .ok (some d) ∧
        JVal.getKey d ("_key") = some (.str (strTake (lastSegment idv) 36)) ∧
        JVal.getKey d ("_from") = some (.str (("assets/") ++ strTake (lastSegment bidv) 36)) ∧
        JVal.getKey d ("_to") = some (.str (("assets/") ++ strTake (lastSegment didv) 36)) ∧
        JVal.getKey d ("relatietype_key") = some (.str rk) ∧
        (JVal.getKey o ("AIMDBStatus_isActief") = none →
          JVal.getKey d ("AIMDBStatus_isActief") = some (.bool true)) ∧
        (∀ v, JVal.getKey o ("AIMDBStatus_isActief") = some v →
          JVal.getKey d ("AIMDBStatus_isActief") = some v)) ∧
    (relatietypes uri = none →
      relationDoc relatietypes r = .ok none ∧
      ∀ pre post, insertAssetRelations relatietypes (pre ++ r :: post) =
        insertAssetRelations relatietypes (pre ++ post)) := by
  have hactT : JVal.getKey (c3Pre o idv bidv didv) ("AIMDBStatus_isActief") =
      JVal.getKey o ("AIMDBStatus_isActief") := by
    simp [c3Pre, JVal.getKey_setKey]
  have hbN : JVal.getKey o ("AIMDBStatus_isActief") = none →
      c3Base o idv bidv didv =
        JVal.setKey (c3Pre o idv bidv didv) ("AIMDBStatus_isActief") (.bool true) := by
    intro h
    unfold c3Base
    rw [hactT, h]
  have hbS : ∀ v, JVal.getKey o ("AIMDBStatus_isActief") = some v →
      c3Base o idv bidv didv = c3Pre o idv bidv didv := by
    intro v h
    unfold c3Base
    rw [hactT, h]
  have hbody : relationDoc relatietypes r =
      (match relatietypes uri with
       | some rk => .ok (some (JVal.setKey (c3Base o idv bidv didv) ("relatietype_key") (.str rk)))
       | none => .ok none) := by
    rcases hact : JVal.getKey o ("AIMDBStatus_isActief") with _ | v
    · rw [hbN hact]
      unfold relationDoc c3Pre
      rw [h1]
      simp [h2, h3, h4, h5, h6, h7, hact, JVal.getKey_setKey]
    · rw [hbS v hact]
      unfold relationDoc c3Pre
      rw [h1]
      simp [h2, h3, h4, h5, h6, h7, hact, JVal.getKey_setKey]
  refine ⟨?_, ?_⟩
  · intro rk hrk
    refine ⟨JVal.setKey (c3Base o idv bidv didv) ("relatietype_key") (.str rk),
      by rw [hbody, hrk], ?_, ?_, ?_, ?_, ?_, ?_⟩
    · rcases hact : JVal.getKey o ("AIMDBStatus_isActief") with _ | v
      · rw [hbN hact]
        simp [c3Pre, JVal.getKey_setKey]
      · rw [hbS v hact]
        simp [c3Pre, JVal.getKey_setKey]
    · rcases hact : JVal.getKey o ("AIMDBStatus_isActief") with _ | v
      · rw [hbN hact]
        simp [c3Pre, JVal.getKey_setKey]
      · rw [hbS v hact]
        simp [c3Pre, JVal.getKey_setKey]
    · rcases hact : JVal.getKey o ("AIMDBStatus_isActief") with _ | v
      · rw [hbN hact]
        simp [c3Pre, JVal.getKey_setKey]
      · rw [hbS v hact]
        simp [c3Pre, JVal.getKey_setKey]
    · simp [JVal.getKey_setKey]
    · intro hnone
      rw [hbN hnone]
      simp [JVal.getKey_setKey]
    · intro v hv
      rw [hbS v hv]
      rw [JVal.getKey_setKey, if_neg (by decide), hactT]
      exact hv
  · intro hrk
    have hskip : relationDoc relatietypes r = .ok none := by
      rw [hbody, hrk]
    exact ⟨hskip, fun pre post => insertAssetRelations_skip relatietypes r hskip pre post⟩

/-- Witness for C3 at a concrete relation record. -/
theorem asset_relations_c3_witness :
    ∃ d, relationDoc c3WitLookup c3WitRecord = .ok (some d) ∧
      JVal.getKey d ("_key") = some (.str ("RELID-0001")) ∧
      JVal.getKey d ("_from") = some (.str ("assets/BRON-0001")) ∧
      JVal.getKey d ("_to") = some (.str ("assets/DOEL-0001")) ∧
      JVal.getKey d ("relatietype_key") = some (.str ("66bb")) ∧
      JVal.getKey d ("AIMDBStatus_isActief") = some (.bool true) := by
  obtain ⟨d, hd, hk, hf, ht, hr, hdef, hsome⟩ :=
    (asset_relations_c3 c3WitLookup c3WitRecord c3WitObj
      [(("@id"), .str ("https://x/id/asset/BRON-0001"))]
      [(("@id"), .str ("https://x/id/asset/DOEL-0001"))]
      ("https://x/id/asset/RELID-0001") ("https://x/id/asset/BRON-0001")
      ("https://x/id/asset/DOEL-0001") ("uriVoedt")
      (by decide) (by decide) (by decide) (by decide) (by decide) (by decide) (by decide)).1
      ("66bb") (by decide)
  exact ⟨d, hd, hk, hf, ht, hr, hdef (by decide)⟩

/-!  ## Claim C4: derived per-relation-type edge collections -/

theorem lookupAssoc_setAssoc_self {α : Type} (l : List (String × α)) (k : String) (v : α) :
    lookupAssoc (setAssoc l k v) k = some v := by
  induction l with
  | nil => simp [setAssoc, lookupAssoc]
  | cons hd tl ih =>
      obtain ⟨k', v'⟩ := hd
      by_cases h : k' = k <;> simp [setAssoc, lookupAssoc, h, ih]

theorem strListHas_append_self (l : List String) (n : String) :
    strListHas (l ++ [n]) n = true := by
  induction l with
  | nil => simp [strListHas]
  | cons x xs ih => by_cases h : x = n <;> simp [strListHas, h, ih]

/-- Membership in the set-based rebuild query, unfolded to the claim's
existential form. -/
theorem mem_derivedEdgesQuery (db : ExtraDB) (rtKey : String) (e : DerivedEdge) :
    e ∈ db.derivedEdgesQuery rtKey ↔
      ∃ r ∈ db.assetrelaties, r.relatietypeKey = .str rtKey ∧ r.isActief = .bool true ∧
        (∃ a, db.document r.fromId = some a ∧ a.isActief = .bool true) ∧
        (∃ b, db.document r.toId = some b ∧ b.isActief = .bool true) ∧
        e = ⟨r.fromId, r.toId, r.id, r.key⟩ := by
  unfold ExtraDB.derivedEdgesQuery
  simp only [List.mem_map, List.mem_filter]
  constructor
  · rintro ⟨r, ⟨hr, hcond⟩, rfl⟩
    refine ⟨r, hr, ?_⟩
    rcases hfrom : db.document r.fromId with _ | a <;>
      rcases hto : db.document r.toId with _ | b <;>
      rw [hfrom, hto] at hcond <;>
      simp only [Bool.and_eq_true, beq_iff_eq] at hcond
    · exact absurd hcond.2 (by simp)
    · exact absurd hcond.2 (by simp)
    · exact absurd hcond.2 (by simp)
    · exact ⟨hcond.1.1, hcond.1.2, ⟨a, rfl, hcond.2.1⟩, ⟨b, rfl, hcond.2.2⟩, rfl⟩
  · rintro ⟨r, hr, h1, h2, ⟨a, hfrom, ha⟩, ⟨b, hto, hb⟩, rfl⟩
    refine ⟨r, ⟨hr, ?_⟩, rfl⟩
    rw [hfrom, hto]
    simp [h1, h2, ha, hb]

/-- C4: for each short relation-type name (`Voedt` via its own handler,
`Sturing`, `Bevestiging`, `HoortBij` via `_fill_derived_edges`), the Extra
Fill Engine ensures the target edge collection exists, truncates it and
repopulates it so that it contains exactly the
`{_from, _to, source_edge_id, source_edge_key}` edges for the rows of
`assetrelaties` whose `relatietype_key` matches the looked-up relation-type,
whose `AIMDBStatus_isActief` is `true` and whose endpoint documents both
exist and are active; the fill marker is then set to completed.  The
membership characterization mentions only the pre-state's rows, so the
result is independent of the collection's prior contents (truncation). -/
theorem derived_edges_c4 (db : ExtraDB) (pk cn short : String) (e : DerivedEdge) :
    fillVoedtRelaties db =
      fillDerivedEdges db ("fill_voedt_relaties") ("voedt_relaties") ("Voedt") ∧
    fillSturingRelaties db =
      fillDerivedEdges db ("fill_sturing_relaties") ("sturing_relaties") ("Sturing") ∧
    fillBevestigingRelaties db =
      fillDerivedEdges db ("fill_bevestiging_relaties") ("bevestiging_relaties") ("Bevestiging") ∧
    fillHoortbijRelaties db =
      fillDerivedEdges db ("fill_hoortbij_relaties") ("hoortbij_relaties") ("HoortBij") ∧
    (fillDerivedEdges db pk cn short).hasCollection cn = true ∧
    lookupAssoc (fillDerivedEdges db pk cn short).params pk = some ⟨false, none⟩ ∧
    (e ∈ (fillDerivedEdges db pk cn short).getDerived cn ↔
      ∃ rtKey, db.rtKeyByShort short = some rtKey ∧
        ∃ r ∈ db.assetrelaties, r.relatietypeKey = .str rtKey ∧ r.isActief = .bool true ∧
          (∃ a, db.document r.fromId = some a ∧ a.isActief = .bool true) ∧
          (∃ b, db.document r.toId = some b ∧ b.isActief = .bool true) ∧
          e = ⟨r.fromId, r.toId, r.id, r.key⟩) := by
  have hrt : ((db.ensureEdgeCollection cn).setDerived cn []).rtKeyByShort short =
      db.rtKeyByShort short := by
    unfold ExtraDB.rtKeyByShort ExtraDB.ensureEdgeCollection ExtraDB.setDerived
      ExtraDB.hasCollection
    split <;> rfl
  have hq : ∀ rtKey, ((db.ensureEdgeCollection cn).setDerived cn []).derivedEdgesQuery rtKey =
      db.derivedEdgesQuery rtKey := by
    intro rtKey
    unfold ExtraDB.derivedEdgesQuery ExtraDB.document ExtraDB.ensureEdgeCollection
      ExtraDB.setDerived ExtraDB.hasCollection
    split <;> rfl
  have hcoll : strListHas ((db.ensureEdgeCollection cn).setDerived cn []).collections cn =
      true := by
    unfold ExtraDB.ensureEdgeCollection ExtraDB.setDerived ExtraDB.hasCollection
    by_cases hc : strListHas db.collections cn = true
    · simp [hc]
    · simp only [hc, Bool.false_eq_true, if_false]
      exact strListHas_append_self db.collections cn
  refine ⟨rfl, rfl, rfl, rfl, ?_, ?_, ?_⟩
  · unfold fillDerivedEdges rebuildDerived
    rw [hrt]
    rcases h : db.rtKeyByShort short with _ | rtKey
    · exact hcoll
    · exact hcoll
  · unfold fillDerivedEdges rebuildDerived
    rw [hrt]
    rcases h : db.rtKeyByShort short with _ | rtKey <;>
      simp [ExtraDB.markFilled, ExtraDB.setDerived, lookupAssoc_setAssoc_self]
  · unfold fillDerivedEdges rebuildDerived
    rw [hrt]
    rcases h : db.rtKeyByShort short with _ | rtKey
    · simp only [ExtraDB.markFilled, ExtraDB.getDerived, ExtraDB.setDerived,
        ExtraDB.ensureEdgeCollection]
      constructor
      · intro he
        exfalso
        revert he
        split <;> simp [lookupAssoc_setAssoc_self]
      · rintro ⟨rtKey, hrk, _⟩
        exact absurd hrk (by simp)
    · dsimp only
      rw [hq rtKey]
      simp only [ExtraDB.getDerived, ExtraDB.markFilled, ExtraDB.setDerived]
      rw [lookupAssoc_setAssoc_self]
      simp only [Option.getD_some]
      rw [mem_derivedEdgesQuery db rtKey e]
      constructor
      · intro hmem
        exact ⟨rtKey, rfl, hmem⟩
      · rintro ⟨rtKey2, hrk2, hmem⟩
        obtain rfl : rtKey = rtKey2 := by injection hrk2
        exact hmem

/-- C6: in one resource fill, the trace of DB interactions — in sequential
mode and in producer/consumer pipeline mode alike — is exactly: per page, an
optional bulk write (only when the page is non-empty) followed by the
persistence of that page's cursor, with the completion marker after the
final page; hence every page's records are written before its cursor is
persisted, cursors are persisted in upstream yield order, and an empty page
still persists its cursor while writing nothing. -/
theorem fill_ordering_c6 {Rec : Type} (pages : List (Option String × List Rec)) :
    seqFillEvents pages = specFillEvents pages ∧
    pipelineFillEvents pages = specFillEvents pages ∧
    persistedCursors (seqFillEvents pages) = (processedPages pages).map Prod.fst :=
  ⟨seqFillEvents_eq_spec pages,
   by rw [pipelineFillEvents_eq_seq pages, seqFillEvents_eq_spec pages],
   persistedCursors_seq pages⟩

end InfraDb
